import Mathlib

/-!
Verification of the calculator-with-history system (calculator.py, history.py,
main.py, persistence.py) against its design specification.

Numeric model: Python distinguishes arbitrary-precision `int` from IEEE-754
double `float`.  We embed a `float` as an exact rational together with the
special values `inf`, `-inf` and `nan`; mantissa rounding is not modelled, but
overflow is: any finite value of magnitude at least 2^1024 lies outside the
double range, so operations that Python lets overflow silently clamp to
`±inf`, and conversions/operations that raise `OverflowError` in Python do so
here exactly when the magnitude reaches 2^1024.  Fallible Python code is
embedded as `Except PyErr`; a raised exception that leaves an object untouched
is modelled by returning the unchanged state alongside the error.
-/

/-- Special-value-aware model of a Python `float`: an exact rational payload or
one of the IEEE special values. -/
inductive Fl where
  | finite (q : ℚ)
  | inf
  | negInf
  | nan
deriving DecidableEq

/-- Model of Python's `Number = Union[int, float]` from calculator.py. -/
inductive Number where
  | int (z : ℤ)
  | float (f : Fl)
deriving DecidableEq

/-- The Python exceptions the calculator code can raise or catch. -/
inductive PyErr where
  | zeroDivisionError (msg : String)
  | valueError (msg : String)
  | overflowError
deriving DecidableEq

/-- Magnitude threshold beyond which a real value is outside the IEEE double
range (doubles top out just below 2^1024).  Stated via the `ℕ` shift
`1 <<< 1024 = 2^1024` so that concrete runs of the model reduce fast. -/
def floatLim : ℚ := ((1 <<< 1024 : ℕ) : ℚ)

/-- The same threshold as an integer, for `int`-to-`float` conversions. -/
def intLim : ℤ := ((1 <<< 1024 : ℕ) : ℤ)

/-- Silent float overflow: IEEE arithmetic clamps out-of-range results to
`±inf` without raising. -/
def clampFl (q : ℚ) : Fl :=
  if floatLim ≤ q then .inf
  else if q ≤ -floatLim then .negInf
  else .finite q

/-- Conversion of a Python `int` to `float`: raises `OverflowError` ("int too
large to convert to float") when the integer is outside the double range. -/
def intToFl (z : ℤ) : Except PyErr Fl :=
  if intLim ≤ z ∨ z ≤ -intLim then .error .overflowError
  else .ok (.finite (z : ℚ))

/-- Conversion of either kind of Python number to `float`. -/
def numToFl : Number → Except PyErr Fl
  | .int z => intToFl z
  | .float f => .ok f

/-- IEEE float addition on the special-value model (exact on finite values,
with silent overflow to `±inf`). -/
def Fl.add : Fl → Fl → Fl
  | .nan, _ => .nan
  | _, .nan => .nan
  | .inf, .negInf => .nan
  | .negInf, .inf => .nan
  | .inf, _ => .inf
  | _, .inf => .inf
  | .negInf, _ => .negInf
  | _, .negInf => .negInf
  | .finite a, .finite b => clampFl (a + b)

/-- IEEE float subtraction on the special-value model. -/
def Fl.sub : Fl → Fl → Fl
  | .nan, _ => .nan
  | _, .nan => .nan
  | .inf, .inf => .nan
  | .negInf, .negInf => .nan
  | .inf, _ => .inf
  | _, .negInf => .inf
  | .negInf, _ => .negInf
  | _, .inf => .negInf
  | .finite a, .finite b => clampFl (a - b)

/-- IEEE float multiplication on the special-value model (`inf * 0 = nan`). -/
def Fl.mul : Fl → Fl → Fl
  | .nan, _ => .nan
  | _, .nan => .nan
  | .inf, .inf => .inf
  | .inf, .negInf => .negInf
  | .negInf, .inf => .negInf
  | .negInf, .negInf => .inf
  | .inf, .finite b => if b = 0 then .nan else if 0 < b then .inf else .negInf
  | .finite a, .inf => if a = 0 then .nan else if 0 < a then .inf else .negInf
  | .negInf, .finite b => if b = 0 then .nan else if 0 < b then .negInf else .inf
  | .finite a, .negInf => if a = 0 then .nan else if 0 < a then .negInf else .inf
  | .finite a, .finite b => clampFl (a * b)

/-- IEEE float division on the special-value model.  A divisor equal to exact
zero never reaches this function from `Calculator.divide` (the `b == 0` guard
raises first); for totality that case is mapped to `nan`. -/
def Fl.div : Fl → Fl → Fl
  | .nan, _ => .nan
  | _, .nan => .nan
  | .inf, .inf => .nan
  | .inf, .negInf => .nan
  | .negInf, .inf => .nan
  | .negInf, .negInf => .nan
  | .inf, .finite b => if 0 ≤ b then .inf else .negInf
  | .negInf, .finite b => if 0 ≤ b then .negInf else .inf
  | .finite _, .inf => .finite 0
  | .finite _, .negInf => .finite 0
  | .finite a, .finite b => if b = 0 then .nan else clampFl (a / b)

/-- Python's `x == 0` test as used by `Calculator.divide`: true exactly on the
integer 0 and the float 0.0 (`nan`/`inf` compare unequal to 0). -/
def pyEqZero : Number → Bool
  | .int z => z = 0
  | .float (.finite q) => q = 0
  | .float _ => false

/-- Python's `x < 0` test as used by the `power` and `square_root` guards
(exact comparison; `nan < 0` is false). -/
def pyLtZero : Number → Bool
  | .int z => decide (z < 0)
  | .float (.finite q) => decide (q < 0)
  | .float .negInf => true
  | .float .inf => false
  | .float .nan => false

/-- Python's `isinstance(x, int)` test from `Calculator.power`. -/
def Number.isInt : Number → Bool
  | .int _ => true
  | .float _ => false

/-- Python `a + b` on numbers: exact on two ints, otherwise both operands are
converted to float (which can raise `OverflowError` for a huge int) and added
with IEEE semantics. -/
def pyAdd : Number → Number → Except PyErr Number
  | .int a, .int b => .ok (.int (a + b))
  | a, b => do
    let fa ← numToFl a
    let fb ← numToFl b
    .ok (.float (Fl.add fa fb))

/-- Python `a - b` on numbers (same conversion rules as `pyAdd`). -/
def pySub : Number → Number → Except PyErr Number
  | .int a, .int b => .ok (.int (a - b))
  | a, b => do
    let fa ← numToFl a
    let fb ← numToFl b
    .ok (.float (Fl.sub fa fb))

/-- Python `a * b` on numbers (same conversion rules as `pyAdd`). -/
def pyMul : Number → Number → Except PyErr Number
  | .int a, .int b => .ok (.int (a * b))
  | a, b => do
    let fa ← numToFl a
    let fb ← numToFl b
    .ok (.float (Fl.mul fa fb))

/-- Python true division `a / b` for a divisor already checked against `== 0`:
`int / int` is the exact quotient rounded into a float, raising
`OverflowError` ("integer division result too large for a float") when the
quotient is out of range; once a float is involved the division is IEEE and
overflows silently to `±inf`. -/
def pyDiv : Number → Number → Except PyErr Number
  | .int a, .int b =>
    if floatLim ≤ |(a : ℚ) / (b : ℚ)| then .error .overflowError
    else .ok (.float (.finite ((a : ℚ) / (b : ℚ))))
  | a, b => do
    let fa ← numToFl a
    let fb ← numToFl b
    .ok (.float (Fl.div fa fb))

/-- Does this rational denote a mathematical integer?  (Used for the parity
cases of IEEE `pow` on integral float exponents.) -/
def isIntQ (q : ℚ) : Bool := q.den = 1

/-- Does this rational denote an odd integer? -/
def isOddIntQ (q : ℚ) : Bool := q.den = 1 && q.num % 2 ≠ 0

/-- Python `float ** float` (the C `pow` with Python's wrappers), parametric
in `pA`, the correctly-rounded power function on finite positive bases — the
claims under verification depend only on when `pow` raises, never on the
rounded value itself.  Follows IEEE 754 `pow` special cases: `x ** 0 = 1` and
`1 ** y = 1` even for `nan`/`inf` arguments; `0.0` to a negative power raises
`ZeroDivisionError`; finite overflow raises `OverflowError` (which
`Calculator.power` turns into `ValueError`).  A finite negative base with a
non-integral exponent yields a complex number in Python; that branch is
unreachable from `Calculator.power` because of its guard, and is modelled as
an error. -/
def Fl.fpow (pA : ℚ → ℚ → ℚ) : Fl → Fl → Except PyErr Fl
  | b, .finite qe =>
    if qe = 0 then .ok (.finite 1)
    else
      match b with
      | .nan => .ok .nan
      | .inf => if 0 < qe then .ok .inf else .ok (.finite 0)
      | .negInf =>
        if 0 < qe then (if isOddIntQ qe then .ok .negInf else .ok .inf)
        else .ok (.finite 0)
      | .finite qb =>
        if qb = 0 then
          if 0 < qe then .ok (.finite 0)
          else .error (.zeroDivisionError "0.0 cannot be raised to a negative power")
        else if 0 < qb then
          let v := pA qb qe
          if floatLim ≤ |v| then .error .overflowError else .ok (.finite v)
        else if isIntQ qe then
          let v := pA |qb| qe
          let sv := if isOddIntQ qe then -v else v
          if floatLim ≤ |sv| then .error .overflowError else .ok (.finite sv)
        else .error (.valueError "complex result (unreachable from Calculator.power)")
  | b, .nan => if b = .finite 1 then .ok (.finite 1) else .ok .nan
  | b, .inf =>
    match b with
    | .nan => .ok .nan
    | .inf => .ok .inf
    | .negInf => .ok .inf
    | .finite qb =>
      if 1 < |qb| then .ok .inf
      else if |qb| = 1 then .ok (.finite 1)
      else .ok (.finite 0)
  | b, .negInf =>
    match b with
    | .nan => .ok .nan
    | .inf => .ok (.finite 0)
    | .negInf => .ok (.finite 0)
    | .finite qb =>
      if 1 < |qb| then .ok (.finite 0)
      else if |qb| = 1 then .ok (.finite 1)
      else .ok .inf

/-- Python `base ** exponent` on numbers.  `int ** int` with a non-negative
exponent is exact (arbitrary precision, no overflow); with a negative exponent
Python raises `ZeroDivisionError` on base 0 and otherwise computes the float
reciprocal power (converting a huge base raises `OverflowError`); once a float
is involved both operands are converted and `Fl.fpow` applies. -/
def pyPow (pA : ℚ → ℚ → ℚ) : Number → Number → Except PyErr Number
  | .int a, .int e =>
    if 0 ≤ e then .ok (.int (a ^ e.toNat))
    else if a = 0 then
      .error (.zeroDivisionError "0.0 cannot be raised to a negative power")
    else if intLim ≤ a ∨ a ≤ -intLim then .error .overflowError
    else .ok (.float (.finite ((a : ℚ) ^ e)))
  | a, e => do
    let fa ← numToFl a
    let fe ← numToFl e
    match Fl.fpow pA fa fe with
    | .error err => .error err
    | .ok f => .ok (.float f)

/-- Python `math.sqrt` applied to a number, parametric in `sA`, the rounded
square root on finite non-negative rationals (the claims never depend on the
value).  A huge int argument raises `OverflowError` during conversion;
`sqrt(inf) = inf` and `sqrt(nan) = nan` pass through; a negative finite or
`-inf` argument never reaches this call from `Calculator.square_root` (its
guard raises first) and is modelled as the `math domain error`. -/
def pySqrt (sA : ℚ → ℚ) : Number → Except PyErr Number
  | .int z =>
    if intLim ≤ z ∨ z ≤ -intLim then .error .overflowError
    else if z < 0 then .error (.valueError "math domain error")
    else .ok (.float (.finite (sA (z : ℚ))))
  | .float (.finite q) =>
    if q < 0 then .error (.valueError "math domain error")
    else .ok (.float (.finite (sA q)))
  | .float .inf => .ok (.float .inf)
  | .float .negInf => .error (.valueError "math domain error")
  | .float .nan => .ok (.float .nan)

/-- Python `math.isnan(x)`: false on every int that fits in a float, raises
`OverflowError` on an int outside the float range (the argument is converted
first), and tests the `nan` constructor on floats. -/
def chkNan : Number → Except PyErr Bool
  | .int z =>
    if intLim ≤ z ∨ z ≤ -intLim then .error .overflowError
    else .ok false
  | .float f => .ok (f = .nan)

/-- Python `math.isinf(x)` under the same conversion rules as `chkNan`. -/
def chkInf : Number → Except PyErr Bool
  | .int z =>
    if intLim ≤ z ∨ z ≤ -intLim then .error .overflowError
    else .ok false
  | .float f => .ok (f = .inf || f = .negInf)

/-- Python `x > y` on numbers: exact mixed int/float comparison (Python
compares an int and a float without rounding); any comparison with `nan` is
false. -/
def pyGtB : Number → Number → Bool
  | .float .nan, _ => false
  | _, .float .nan => false
  | .float .inf, .float .inf => false
  | .float .inf, _ => true
  | _, .float .inf => false
  | .float .negInf, _ => false
  | _, .float .negInf => true
  | .int a, .int b => decide (b < a)
  | .int a, .float (.finite q) => decide (q < (a : ℚ))
  | .float (.finite q), .int b => decide ((b : ℚ) < q)
  | .float (.finite p), .float (.finite q) => decide (q < p)

/-- Python `x < y` on numbers, with the same conventions as `pyGtB`. -/
def pyLtB : Number → Number → Bool
  | .float .nan, _ => false
  | _, .float .nan => false
  | .float .inf, .float .inf => false
  | .float .inf, _ => false
  | _, .float .inf => true
  | .float .negInf, .float .negInf => false
  | .float .negInf, _ => true
  | _, .float .negInf => false
  | .int a, .int b => decide (a < b)
  | .int a, .float (.finite q) => decide ((a : ℚ) < q)
  | .float (.finite q), .int b => decide (q < (b : ℚ))
  | .float (.finite p), .float (.finite q) => decide (p < q)

/-! ## Calculator (calculator.py) -/

/-- State of a `Calculator` object: the single field `last_result`. -/
structure CalcState where
  last_result : Number
deriving DecidableEq

/-- `Calculator.__init__`: `self.last_result = 0` (a Python int). -/
def Calculator.init : CalcState := ⟨.int 0⟩

/-- `Calculator.add`: computes `a + b`, stores it in `last_result`, returns
it.  A raised exception (int-to-float conversion overflow) leaves the state
untouched. -/
def Calculator.add (a b : Number) (s : CalcState) :
    Except PyErr Number × CalcState :=
  match pyAdd a b with
  | .error e => (.error e, s)
  | .ok result => (.ok result, ⟨result⟩)

/-- `Calculator.subtract`: as `Calculator.add`, with `a - b`. -/
def Calculator.subtract (a b : Number) (s : CalcState) :
    Except PyErr Number × CalcState :=
  match pySub a b with
  | .error e => (.error e, s)
  | .ok result => (.ok result, ⟨result⟩)

/-- `Calculator.multiply`: as `Calculator.add`, with `a * b`. -/
def Calculator.multiply (a b : Number) (s : CalcState) :
    Except PyErr Number × CalcState :=
  match pyMul a b with
  | .error e => (.error e, s)
  | .ok result => (.ok result, ⟨result⟩)

/-- `Calculator.divide`: raises `ZeroDivisionError("Cannot divide by zero")`
when `b == 0`, otherwise computes `a / b`, stores and returns it. -/
def Calculator.divide (a b : Number) (s : CalcState) :
    Except PyErr Number × CalcState :=
  if pyEqZero b then (.error (.zeroDivisionError "Cannot divide by zero"), s)
  else
    match pyDiv a b with
    | .error e => (.error e, s)
    | .ok result => (.ok result, ⟨result⟩)

/-- The body of `Calculator.power`'s `try` block: the negative-base guard,
the power itself, then the `isnan`/`isinf` rejection, in source order. -/
def Calculator.powerBody (pA : ℚ → ℚ → ℚ) (base exponent : Number) :
    Except PyErr Number := do
  if pyLtZero base && !exponent.isInt then
    .error (.valueError "Cannot raise negative number to non-integer power")
  else
    let result ← pyPow pA base exponent
    let isN ← chkNan result
    let isI ← chkInf result
    if isN || isI then .error (.valueError "Operation resulted in invalid number")
    else .ok result

/-- `Calculator.power`: runs `Calculator.powerBody` and converts a caught
`OverflowError` into `ValueError("Operation resulted in overflow")`;
`last_result` is assigned only on the success path. -/
def Calculator.power (pA : ℚ → ℚ → ℚ) (base exponent : Number) (s : CalcState) :
    Except PyErr Number × CalcState :=
  match Calculator.powerBody pA base exponent with
  | .error .overflowError => (.error (.valueError "Operation resulted in overflow"), s)
  | .error e => (.error e, s)
  | .ok result => (.ok result, ⟨result⟩)

/-- `Calculator.square_root`: raises
`ValueError("Cannot calculate square root of negative number")` when
`number < 0`, otherwise computes `math.sqrt(number)`, stores and returns it. -/
def Calculator.square_root (sA : ℚ → ℚ) (number : Number) (s : CalcState) :
    Except PyErr Number × CalcState :=
  if pyLtZero number then
    (.error (.valueError "Cannot calculate square root of negative number"), s)
  else
    match pySqrt sA number with
    | .error e => (.error e, s)
    | .ok result => (.ok result, ⟨result⟩)

/-- `Calculator.get_last_result`. -/
def Calculator.get_last_result (s : CalcState) : Number := s.last_result

/-- `Calculator.clear`: resets `last_result` to the int 0. -/
def Calculator.clear (_ : CalcState) : CalcState := ⟨.int 0⟩

/-! ## History (history.py) -/

/-- One history entry, the dict built by `History.add_operation`:
`{timestamp, operation, operands, result}`.  The timestamp models a
`datetime` instant (microsecond-resolution wall clock reading). -/
structure Rec where
  timestamp : ℕ
  operation : String
  operands : List Number
  result : Number
deriving DecidableEq

/-- State of a `History` object: `max_size` (a Python int, default 100) and
the ordered list `operations`, oldest first. -/
structure HistoryState where
  max_size : ℤ
  operations : List Rec
deriving DecidableEq

/-- `History.__init__(max_size=100)`. -/
def History.init (max_size : ℤ := 100) : HistoryState := ⟨max_size, []⟩

/-- `History.add_operation`: appends the new entry (with the current instant
`now` and a copy of the operand list) at the tail, then pops the head if the
length now exceeds `max_size`. -/
def History.add_operation (now : ℕ) (operation : String) (operands : List Number)
    (result : Number) (h : HistoryState) : HistoryState :=
  let entry : Rec := ⟨now, operation, operands, result⟩
  let ops := h.operations ++ [entry]
  { h with operations := if h.max_size < (ops.length : ℤ) then ops.tail else ops }

/-- `History.get_last_operations(count=10)`: `[]` when `count <= 0`, else the
Python slice `operations[-count:][::-1]` (the last `count` entries, reversed
into most-recent-first order). -/
def History.get_last_operations (count : ℤ) (h : HistoryState) : List Rec :=
  if count ≤ 0 then []
  else ((h.operations.drop (h.operations.length - count.toNat)).reverse)

/-- `History.get_all_operations`: the whole log, most recent first. -/
def History.get_all_operations (h : HistoryState) : List Rec :=
  h.operations.reverse

/-- `History.clear_history`. -/
def History.clear_history (h : HistoryState) : HistoryState :=
  { h with operations := [] }

/-- `History.get_operation_count`. -/
def History.get_operation_count (h : HistoryState) : ℕ :=
  h.operations.length

/-- `History.search_operations`: the list comprehension filtering on the
operation tag, then `[::-1]`. -/
def History.search_operations (operation_type : String) (h : HistoryState) :
    List Rec :=
  (h.operations.filter (fun op => op.operation == operation_type)).reverse

/-- The dict returned by `History.get_statistics`.  The Python dict
`operation_types` is modelled as its counting function (a tag absent from the
dict corresponds to count 0). -/
structure Stats where
  total_operations : ℕ
  operation_types : String → ℕ
  average_result : Option Number
  max_result : Option Number
  min_result : Option Number

/-- Python `sum(results)`: a left fold of `+` starting from the int 0 (so a
huge-int/float mix can raise `OverflowError`, which would propagate out of
`get_statistics`). -/
def pySum (results : List Number) : Except PyErr Number :=
  results.foldlM (fun acc r => pyAdd acc r) (.int 0)

/-- Python `max(results)` on a nonempty list: keep the current candidate,
replace it whenever a later item compares strictly greater. -/
def pyMaxL : List Number → Option Number
  | [] => none
  | x :: xs => some (xs.foldl (fun c i => if pyGtB i c then i else c) x)

/-- Python `min(results)` on a nonempty list. -/
def pyMinL : List Number → Option Number
  | [] => none
  | x :: xs => some (xs.foldl (fun c i => if pyLtB i c then i else c) x)

/-- The occurrence-count dict built by the loop in `History.get_statistics`:
`operation_types[op] = operation_types.get(op, 0) + 1`. -/
def statTypes (ops : List Rec) : String → ℕ :=
  ops.foldl (fun m op => fun t => if t = op.operation then m t + 1 else m t)
    (fun _ => 0)

/-- `History.get_statistics`: the empty-log dict of `None`s, or the counts,
`sum/len` average and `max`/`min` over the result values. -/
def History.get_statistics (h : HistoryState) : Except PyErr Stats :=
  if h.operations.isEmpty then
    .ok ⟨0, fun _ => 0, none, none, none⟩
  else do
    let results := h.operations.map (fun op => op.result)
    let s ← pySum results
    let avg ← pyDiv s (.int (results.length : ℤ))
    .ok ⟨h.operations.length, statTypes h.operations, some avg,
         pyMaxL results, pyMinL results⟩

/-! ## Persistence (persistence.py)

The adapter serializes the operations list to a JSON document.  JSON values
are modelled structurally; Python's `json` module keeps the int/float
distinction of numbers (and accepts `NaN`/`Infinity` literals), so a JSON
number carries a `Number`.  The stdlib `datetime.isoformat` /
`datetime.fromisoformat` pair is modelled parametrically as a codec
`iso : ℕ → String`, `fromIso : String → Option ℕ`; the documented stdlib
behaviour is that `fromisoformat` inverts `isoformat` exactly (microsecond
precision is preserved by both), which appears as the codec hypothesis of the
round-trip theorem. -/

/-- A parsed JSON document. -/
inductive Json where
  | str (s : String)
  | num (n : Number)
  | arr (elems : List Json)
  | obj (fields : List (String × Json))

/-- The serializable dict `save_history` builds from one entry: the entry
with its `datetime` replaced by its ISO string, dumped with the dict's
insertion order. -/
def encodeOp (iso : ℕ → String) (r : Rec) : Json :=
  .obj [("timestamp", .str (iso r.timestamp)),
        ("operation", .str r.operation),
        ("operands", .arr (r.operands.map (fun n => .num n))),
        ("result", .num r.result)]

/-- The JSON document written by a successful `HistoryPersistence.save_history`
call: the array of serialized entries.  (On an `IOError`/`OSError` the method
returns `False` and the claims here only concern successful saves.) -/
def save_history (iso : ℕ → String) (ops : List Rec) : Json :=
  .arr (ops.map (encodeOp iso))

/-- Decoder for an operand array of JSON numbers. -/
def decodeNums : List Json → Option (List Number)
  | [] => some []
  | .num n :: rest => do
    let r ← decodeNums rest
    some (n :: r)
  | _ => none

/-- Reconstruction of one entry from its JSON object, including
`load_history`'s conversion of the timestamp string back through the datetime
codec.  `load_history` itself validates nothing beyond the timestamp field;
this decoder covers exactly the schema `save_history` writes (`none` marks a
document outside that schema, where the Python code would hand back raw
dicts or crash on a malformed element — outside the claims' scope). -/
def decodeOp (fromIso : String → Option ℕ) : Json → Option Rec
  | .obj [("timestamp", .str ts), ("operation", .str op),
          ("operands", .arr os), ("result", .num res)] => do
    let t ← fromIso ts
    let nums ← decodeNums os
    some ⟨t, op, nums, res⟩
  | _ => none

/-- Decoder for the whole persisted document (a JSON array of entries). -/
def decodeOps (fromIso : String → Option ℕ) : Json → Option (List Rec)
  | .arr js => js.mapM (decodeOp fromIso)
  | _ => none

/-- What `HistoryPersistence.load_history` finds at the configured path. -/
inductive FileState where
  | absent
  | ioError
  | malformed
  | content (j : Json)

/-- `HistoryPersistence.load_history`: an absent file yields `[]` (not an
error); an `IOError`/`OSError` or a `json.JSONDecodeError` is caught and
yields `[]`; otherwise the parsed document is decoded (timestamp strings
converted back to datetimes).  `none` marks the modelled-crash region, see
`decodeOp`. -/
def load_history (fromIso : String → Option ℕ) :
    FileState → Option (List Rec)
  | .absent => some []
  | .ioError => some []
  | .malformed => some []
  | .content j => decodeOps fromIso j

/-! ## Facade (main.py, `CalculatorWithHistory`) -/

/-- State of a `CalculatorWithHistory` object: the composed calculator and
history.  (The optional persistence adapter holds no state beyond its path
and is passed to `load_from_file` as a `FileState`.) -/
structure FacadeState where
  calculator : CalcState
  history : HistoryState
deriving DecidableEq

/-- `CalculatorWithHistory.__init__`: a fresh calculator and a `History()`
with the default capacity 100. -/
def CWH.init : FacadeState := ⟨Calculator.init, History.init⟩

/-- `CalculatorWithHistory.add`: delegates to the calculator, and on success
records `('add', [a, b], result)` in the history; `now` is the instant
`datetime.now()` reads inside `add_operation`. -/
def CWH.add (now : ℕ) (a b : Number) (s : FacadeState) :
    Except PyErr Number × FacadeState :=
  match Calculator.add a b s.calculator with
  | (.error e, c) => (.error e, { s with calculator := c })
  | (.ok result, c) =>
    (.ok result, ⟨c, History.add_operation now "add" [a, b] result s.history⟩)

/-- `CalculatorWithHistory.subtract`. -/
def CWH.subtract (now : ℕ) (a b : Number) (s : FacadeState) :
    Except PyErr Number × FacadeState :=
  match Calculator.subtract a b s.calculator with
  | (.error e, c) => (.error e, { s with calculator := c })
  | (.ok result, c) =>
    (.ok result, ⟨c, History.add_operation now "subtract" [a, b] result s.history⟩)

/-- `CalculatorWithHistory.multiply`. -/
def CWH.multiply (now : ℕ) (a b : Number) (s : FacadeState) :
    Except PyErr Number × FacadeState :=
  match Calculator.multiply a b s.calculator with
  | (.error e, c) => (.error e, { s with calculator := c })
  | (.ok result, c) =>
    (.ok result, ⟨c, History.add_operation now "multiply" [a, b] result s.history⟩)

/-- `CalculatorWithHistory.divide`. -/
def CWH.divide (now : ℕ) (a b : Number) (s : FacadeState) :
    Except PyErr Number × FacadeState :=
  match Calculator.divide a b s.calculator with
  | (.error e, c) => (.error e, { s with calculator := c })
  | (.ok result, c) =>
    (.ok result, ⟨c, History.add_operation now "divide" [a, b] result s.history⟩)

/-- `CalculatorWithHistory.power`. -/
def CWH.power (pA : ℚ → ℚ → ℚ) (now : ℕ) (base exponent : Number)
    (s : FacadeState) : Except PyErr Number × FacadeState :=
  match Calculator.power pA base exponent s.calculator with
  | (.error e, c) => (.error e, { s with calculator := c })
  | (.ok result, c) =>
    (.ok result,
     ⟨c, History.add_operation now "power" [base, exponent] result s.history⟩)

/-- `CalculatorWithHistory.square_root`. -/
def CWH.square_root (sA : ℚ → ℚ) (now : ℕ) (number : Number)
    (s : FacadeState) : Except PyErr Number × FacadeState :=
  match Calculator.square_root sA number s.calculator with
  | (.error e, c) => (.error e, { s with calculator := c })
  | (.ok result, c) =>
    (.ok result,
     ⟨c, History.add_operation now "square_root" [number] result s.history⟩)

/-- `CalculatorWithHistory.get_history(count=10)`. -/
def CWH.get_history (count : ℤ) (s : FacadeState) : List Rec :=
  History.get_last_operations count s.history

/-- `CalculatorWithHistory.load_from_file`: reads the persisted list; if it is
non-empty (`if loaded_ops:`) the entire in-memory operations list is replaced
by it — with no capacity truncation — and `True` is returned; otherwise
`False` is returned and nothing changes.  `none` again marks the
modelled-crash region of `load_history`. -/
def CWH.load_from_file (fromIso : String → Option ℕ) (fs : FileState)
    (s : FacadeState) : Option (Bool × FacadeState) := do
  let loaded ← load_history fromIso fs
  if loaded.isEmpty then some (false, s)
  else some (true, { s with history := { s.history with operations := loaded } })

/-- Decidable equality for `Except`, used to evaluate concrete runs of the
embedded operations in witnesses. -/
instance exceptDecEq {ε α : Type} [DecidableEq ε] [DecidableEq α] :
    DecidableEq (Except ε α) := fun x y =>
  match x, y with
  | .error a, .error b =>
    if h : a = b then isTrue (by rw [h]) else isFalse (by simp [h])
  | .error _, .ok _ => isFalse (by simp)
  | .ok _, .error _ => isFalse (by simp)
  | .ok a, .ok b =>
    if h : a = b then isTrue (by rw [h]) else isFalse (by simp [h])

/-! ## Witness fixtures (small concrete states reused across witnesses) -/

/-- A concrete logged entry. -/
def recA : Rec := ⟨0, "add", [.int 10, .int 5], .int 15⟩

/-- A concrete logged entry. -/
def recB : Rec := ⟨1, "multiply", [.int 3, .int 4], .int 12⟩

/-- A concrete logged entry. -/
def recC : Rec := ⟨2, "add", [.int 2, .int 2], .int 4⟩

/-- A concrete three-entry history at the default capacity. -/
def histW : HistoryState := ⟨100, [recA, recB, recC]⟩
/-- A sequence of `add_operation` calls replaying the given records (as the
facade performs one per successful operation). -/
def appendAll (rs : List Rec) (h : HistoryState) : HistoryState :=
  rs.foldl (fun acc r =>
    History.add_operation r.timestamp r.operation r.operands r.result acc) h
/-- A well-formed persisted entry used in the C2 counterexample. -/
def cexObj : Json :=
  .obj [("timestamp", .str "ab"), ("operation", .str "add"),
        ("operands", .arr [.num (.int 1)]), ("result", .num (.int 1))]
/-- A facade whose history is configured with capacity 1. -/
def cexState : FacadeState := ⟨⟨.int 0⟩, ⟨1, []⟩⟩
/-- A length-as-timestamp stand-in for the datetime codec, used to run the
persistence layer on concrete inputs. -/
def lenIso : String → Option ℕ := fun s => some s.length
/-- A replicate-length codec: an injective textual timestamp encoding with a
total parser inverse, standing in for the stdlib ISO-8601 codec in concrete
runs. -/
def replIso : ℕ → String := fun t => String.mk (List.replicate t 'a')
/-- Is this number finite — an int or a finite float?  (`±inf` and `nan` are
not.) -/
def isFiniteNum : Number → Bool
  | .int _ => true
  | .float (.finite _) => true
  | .float _ => false

/-- The exact rational value of a finite number.  Only used under finiteness
hypotheses; the non-finite constructors are mapped to a dummy 0. -/
def resVal : Number → ℚ
  | .int z => (z : ℚ)
  | .float (.finite q) => q
  | .float _ => 0

/-- The numeric order on non-`nan` Python numbers — ints and floats compared
exactly, with `-inf` below and `+inf` above every finite value — embedded
into the linear order `WithBot (WithTop ℚ)`.  The value assigned to `nan` is
irrelevant: every use is guarded by a no-`nan` hypothesis, because `nan` is
not ordered against anything in Python. -/
def toVal : Number → WithBot (WithTop ℚ)
  | .int z => (((z : ℚ) : WithTop ℚ) : WithBot (WithTop ℚ))
  | .float (.finite q) => ((q : WithTop ℚ) : WithBot (WithTop ℚ))
  | .float .inf => ((⊤ : WithTop ℚ) : WithBot (WithTop ℚ))
  | .float .negInf => (⊥ : WithBot (WithTop ℚ))
  | .float .nan => (⊥ : WithBot (WithTop ℚ))

/-- A log holding a `nan` result (as logged by a successful `add(inf, -inf)`)
followed by the finite result 5.0. -/
def nanLog : HistoryState :=
  ⟨100, [⟨0, "add", [.float .inf, .float .negInf], .float .nan⟩,
         ⟨1, "divide", [.int 10, .int 2], .float (.finite 5)⟩]⟩

/-- A two-operation log with a float result and an int result. -/
def statW2 : HistoryState :=
  ⟨100, [⟨0, "divide", [.int 1, .int 2], .float (.finite (1/2))⟩,
         ⟨1, "add", [.int 1, .int 1], .int 2⟩]⟩

/-! ## Helper lemmas -/

/-- The last `n` entries of a list, reversed, are the first `n` entries of the
reversed list. -/
lemma drop_reverse_eq_reverse_take {α : Type} (l : List α) (n : ℕ) :
    (l.drop (l.length - n)).reverse = l.reverse.take n := by
  have h := List.rtake_eq_reverse_take_reverse (l := l) (n := n)
  unfold List.rtake at h
  rw [h, List.reverse_reverse]

/-- For a positive requested count, `get_last_operations` is a take of the
reversed log. -/
lemma get_last_operations_eq_take (count : ℤ) (h : HistoryState)
    (hc : 0 < count) :
    History.get_last_operations count h =
      h.operations.reverse.take count.toNat := by
  unfold History.get_last_operations
  rw [if_neg (by omega), drop_reverse_eq_reverse_take]

/-! ## C5 — recent(count) -/

/-- C5: for every log state and integer `count`, `recent(count)` returns the
empty sequence when `count ≤ 0`; for positive `count` it returns the first
`count` entries of the reversed log — i.e. the last `count` records in
most-recent-first order; when `count` exceeds the log length this is the whole
log most-recent-first; and when `count ≤ length` its length is exactly
`count`.  `get_last_operations`, like `get_all_operations` and
`search_operations`, is a pure function of the history state (the source
methods only read `self.operations`), so the log is never mutated. -/
theorem recent_count_spec (count : ℤ) (h : HistoryState) :
    (count ≤ 0 → History.get_last_operations count h = []) ∧
    (0 < count → History.get_last_operations count h =
      (History.get_all_operations h).take count.toNat) ∧
    ((h.operations.length : ℤ) < count →
      History.get_last_operations count h = History.get_all_operations h) ∧
    (0 < count → count ≤ (h.operations.length : ℤ) →
      (History.get_last_operations count h).length = count.toNat) := by
  refine ⟨fun hc => ?_, fun hc => ?_, fun hlt => ?_, fun hc hle => ?_⟩
  · unfold History.get_last_operations
    rw [if_pos hc]
  · rw [get_last_operations_eq_take count h hc]
    rfl
  · have hc : 0 < count := by
      have : (0 : ℤ) ≤ h.operations.length := by positivity
      omega
    rw [get_last_operations_eq_take count h hc]
    unfold History.get_all_operations
    apply List.take_of_length_le
    rw [List.length_reverse]
    omega
  · rw [get_last_operations_eq_take count h hc]
    rw [List.length_take, List.length_reverse]
    omega

/-- Witness for C5 at a concrete log and count. -/
theorem recent_count_spec_witness :
    History.get_last_operations 2 histW = [recC, recB] ∧
    (History.get_last_operations 2 histW).length = 2 := by
  have h1 := (recent_count_spec 2 histW).2.1 (by decide)
  have h2 := (recent_count_spec 2 histW).2.2.2 (by decide) (by decide)
  refine ⟨?_, h2⟩
  rw [h1]
  decide

/-! ## C8 — search(name) -/

/-- C8: `search(name)` returns exactly the records whose operation tag equals
`name`, presented in most-recent-first order (it is the tag filter of the
most-recent-first view of the log), its length is the number of matching
records, and every returned record carries the searched tag. -/
theorem search_spec (t : String) (h : HistoryState) :
    History.search_operations t h =
      (History.get_all_operations h).filter (fun r => r.operation == t) ∧
    (History.search_operations t h).length =
      h.operations.countP (fun r => r.operation == t) ∧
    ∀ r ∈ History.search_operations t h, r.operation = t := by
  refine ⟨?_, ?_, ?_⟩
  · unfold History.search_operations History.get_all_operations
    rw [List.filter_reverse]
  · unfold History.search_operations
    rw [List.length_reverse, ← List.countP_eq_length_filter]
  · intro r hr
    unfold History.search_operations at hr
    rw [List.mem_reverse, List.mem_filter] at hr
    exact by simpa using hr.2

/-- Witness for C8 at a concrete log and tag. -/
theorem search_spec_witness :
    History.search_operations "add" histW = [recC, recA] ∧
    (History.search_operations "add" histW).length = 2 := by
  have h1 := (search_spec "add" histW).1
  have h2 := (search_spec "add" histW).2.1
  constructor
  · rw [h1]; decide
  · rw [h2]; decide

/-! ## C10 — last_result tracking -/

/-- C10: `get_last_result()` returns the int 0 on a fresh calculator (before
any operation), every successful operation stores its returned result into
`last_result`, and every failed call leaves the calculator state (hence
`last_result`) unchanged — each method raises before the `self.last_result`
assignment. -/
theorem last_result_spec (pA : ℚ → ℚ → ℚ) (sA : ℚ → ℚ)
    (a b base expo n : Number) (s : CalcState) :
    Calculator.get_last_result Calculator.init = .int 0 ∧
    (∀ s2 : CalcState, Calculator.get_last_result s2 = s2.last_result) ∧
    (∀ v, (Calculator.add a b s).1 = .ok v →
      (Calculator.add a b s).2.last_result = v) ∧
    ((∃ e, (Calculator.add a b s).1 = .error e) → (Calculator.add a b s).2 = s) ∧
    (∀ v, (Calculator.subtract a b s).1 = .ok v →
      (Calculator.subtract a b s).2.last_result = v) ∧
    ((∃ e, (Calculator.subtract a b s).1 = .error e) →
      (Calculator.subtract a b s).2 = s) ∧
    (∀ v, (Calculator.multiply a b s).1 = .ok v →
      (Calculator.multiply a b s).2.last_result = v) ∧
    ((∃ e, (Calculator.multiply a b s).1 = .error e) →
      (Calculator.multiply a b s).2 = s) ∧
    (∀ v, (Calculator.divide a b s).1 = .ok v →
      (Calculator.divide a b s).2.last_result = v) ∧
    ((∃ e, (Calculator.divide a b s).1 = .error e) →
      (Calculator.divide a b s).2 = s) ∧
    (∀ v, (Calculator.power pA base expo s).1 = .ok v →
      (Calculator.power pA base expo s).2.last_result = v) ∧
    ((∃ e, (Calculator.power pA base expo s).1 = .error e) →
      (Calculator.power pA base expo s).2 = s) ∧
    (∀ v, (Calculator.square_root sA n s).1 = .ok v →
      (Calculator.square_root sA n s).2.last_result = v) ∧
    ((∃ e, (Calculator.square_root sA n s).1 = .error e) →
      (Calculator.square_root sA n s).2 = s) := by
  refine ⟨rfl, fun s2 => rfl, ?_, ?_, ?_, ?_, ?_, ?_, ?_, ?_, ?_, ?_, ?_, ?_⟩
  · intro v hv
    cases hpa : pyAdd a b <;> simp [Calculator.add, hpa] at hv ⊢
    exact hv
  · rintro ⟨e, he⟩
    cases hpa : pyAdd a b <;> simp [Calculator.add, hpa] at he ⊢
  · intro v hv
    cases hpa : pySub a b <;> simp [Calculator.subtract, hpa] at hv ⊢
    exact hv
  · rintro ⟨e, he⟩
    cases hpa : pySub a b <;> simp [Calculator.subtract, hpa] at he ⊢
  · intro v hv
    cases hpa : pyMul a b <;> simp [Calculator.multiply, hpa] at hv ⊢
    exact hv
  · rintro ⟨e, he⟩
    cases hpa : pyMul a b <;> simp [Calculator.multiply, hpa] at he ⊢
  · intro v hv
    by_cases hb : pyEqZero b <;> simp [Calculator.divide, hb] at hv ⊢
    cases hpd : pyDiv a b <;> simp [hpd] at hv ⊢
    exact hv
  · rintro ⟨e, he⟩
    by_cases hb : pyEqZero b <;> simp [Calculator.divide, hb] at he ⊢
    cases hpd : pyDiv a b <;> simp [hpd] at he ⊢
  · intro v hv
    cases hbody : Calculator.powerBody pA base expo with
    | error e => cases e <;> simp [Calculator.power, hbody] at hv
    | ok r =>
      simp [Calculator.power, hbody] at hv ⊢
      exact hv
  · rintro ⟨e, he⟩
    cases hbody : Calculator.powerBody pA base expo with
    | error e2 => cases e2 <;> simp [Calculator.power, hbody]
    | ok r => simp [Calculator.power, hbody] at he
  · intro v hv
    by_cases hn : pyLtZero n <;> simp [Calculator.square_root, hn] at hv ⊢
    cases hps : pySqrt sA n <;> simp [hps] at hv ⊢
    exact hv
  · rintro ⟨e, he⟩
    by_cases hn : pyLtZero n <;> simp [Calculator.square_root, hn] at he ⊢
    cases hps : pySqrt sA n <;> simp [hps] at he ⊢

/-- Witness for C10 at concrete inputs. -/
theorem last_result_spec_witness :
    Calculator.get_last_result Calculator.init = .int 0 ∧
    (Calculator.add (.int 5) (.int 3) ⟨.int 0⟩).2.last_result = .int 8 ∧
    (Calculator.divide (.int 5) (.int 0) ⟨.int 8⟩).2 = ⟨.int 8⟩ := by
  have h := last_result_spec (fun _ _ => 0) (fun _ => 0)
    (.int 5) (.int 3) (.int 0) (.int 0) (.int 0) ⟨.int 0⟩
  have h2 := last_result_spec (fun _ _ => 0) (fun _ => 0)
    (.int 5) (.int 0) (.int 0) (.int 0) (.int 0) ⟨.int 8⟩
  refine ⟨h.1, ?_, ?_⟩
  · exact h.2.2.1 (.int 8) (by decide)
  · exact h2.2.2.2.2.2.2.2.2.2.1 ⟨.zeroDivisionError "Cannot divide by zero", by decide⟩

/-- An `Except` bind that errors does so either in its first stage or in its
continuation. -/
lemma except_bind_error {ε α β : Type} (x : Except ε α) (f : α → Except ε β)
    (e : ε) (h : (x >>= f) = .error e) :
    x = .error e ∨ ∃ a, x = .ok a ∧ f a = .error e := by
  cases x with
  | error e2 =>
    left
    have : (Except.error e2 : Except ε β) = .error e := h
    simpa using this
  | ok a => exact Or.inr ⟨a, rfl, h⟩

/-- An `Except` bind that succeeds passes through a successful first stage. -/
lemma except_bind_ok {ε α β : Type} (x : Except ε α) (f : α → Except ε β)
    (v : β) (h : (x >>= f) = .ok v) :
    ∃ a, x = .ok a ∧ f a = .ok v := by
  cases x with
  | error e =>
    have : (Except.error e : Except ε β) = .ok v := h
    simp at this
  | ok a => exact ⟨a, rfl, h⟩

/-- `float(int)` conversion only ever raises `OverflowError`. -/
lemma intToFl_error (z : ℤ) (e : PyErr) (h : intToFl z = .error e) :
    e = .overflowError := by
  unfold intToFl at h
  split at h
  · simpa using h.symm
  · simp at h

/-- `numToFl` only ever raises `OverflowError`. -/
lemma numToFl_error (n : Number) (e : PyErr) (h : numToFl n = .error e) :
    e = .overflowError := by
  cases n with
  | int z => exact intToFl_error z e h
  | float f => simp [numToFl] at h

/-- The convert-then-combine float path of `pyAdd`/`pySub`/`pyMul`/`pyDiv`
only ever raises `OverflowError` (from an operand conversion). -/
lemma binop_float_error (g : Fl → Fl → Fl) (x y : Number) (e : PyErr)
    (h : (do
        let fa ← numToFl x
        let fb ← numToFl y
        (.ok (.float (g fa fb)) : Except PyErr Number)) = .error e) :
    e = .overflowError := by
  rcases except_bind_error _ _ _ h with h1 | ⟨fa, _, h2⟩
  · exact numToFl_error _ _ h1
  · rcases except_bind_error _ _ _ h2 with h3 | ⟨fb, _, h4⟩
    · exact numToFl_error _ _ h3
    · simp at h4

/-- Python addition of numbers only ever raises `OverflowError`. -/
lemma pyAdd_error (a b : Number) (e : PyErr) (h : pyAdd a b = .error e) :
    e = .overflowError := by
  cases a <;> cases b <;> simp only [pyAdd] at h <;>
    first
      | exact binop_float_error Fl.add _ _ _ h
      | simp at h

/-- Python subtraction of numbers only ever raises `OverflowError`. -/
lemma pySub_error (a b : Number) (e : PyErr) (h : pySub a b = .error e) :
    e = .overflowError := by
  cases a <;> cases b <;> simp only [pySub] at h <;>
    first
      | exact binop_float_error Fl.sub _ _ _ h
      | simp at h

/-- Python multiplication of numbers only ever raises `OverflowError`. -/
lemma pyMul_error (a b : Number) (e : PyErr) (h : pyMul a b = .error e) :
    e = .overflowError := by
  cases a <;> cases b <;> simp only [pyMul] at h <;>
    first
      | exact binop_float_error Fl.mul _ _ _ h
      | simp at h

/-- Python true division only ever raises `OverflowError` (for a divisor
already checked against zero). -/
lemma pyDiv_error (a b : Number) (e : PyErr) (h : pyDiv a b = .error e) :
    e = .overflowError := by
  cases a with
  | int za =>
    cases b with
    | int zb =>
      simp only [pyDiv] at h
      split at h
      · simpa using h.symm
      · simp at h
    | float fb => exact binop_float_error Fl.div _ _ _ (by simpa [pyDiv] using h)
  | float fa =>
    cases b with
    | int zb => exact binop_float_error Fl.div _ _ _ (by simpa [pyDiv] using h)
    | float fb => exact binop_float_error Fl.div _ _ _ (by simpa [pyDiv] using h)

/-- `math.sqrt` on a number raises only the conversion `OverflowError` or the
negative-argument `math domain error`. -/
lemma pySqrt_error (sA : ℚ → ℚ) (n : Number) (e : PyErr)
    (h : pySqrt sA n = .error e) :
    e = .overflowError ∨ e = .valueError "math domain error" := by
  cases n with
  | int z =>
    simp only [pySqrt] at h
    split at h
    · left; simpa using h.symm
    · split at h
      · right; simpa using h.symm
      · simp at h
  | float f =>
    cases f with
    | finite q =>
      simp only [pySqrt] at h
      split at h
      · right; simpa using h.symm
      · simp at h
    | inf => simp [pySqrt] at h
    | negInf => right; simpa [pySqrt] using h.symm
    | nan => simp [pySqrt] at h

/-- The float power either raises the conversion/result `OverflowError`, the
`ZeroDivisionError` of a zero base with negative exponent, or the
complex-result marker. -/
lemma fpow_error (pA : ℚ → ℚ → ℚ) (f g : Fl) (e : PyErr)
    (h : Fl.fpow pA f g = .error e) :
    e = .overflowError ∨ (∃ m, e = .zeroDivisionError m) ∨
      e = .valueError "complex result (unreachable from Calculator.power)" := by
  cases g <;> cases f <;>
    simp only [Fl.fpow] at h <;>
    (repeat' split at h) <;>
    simp_all <;>
    first
      | tauto
      | exact Or.inr (Or.inl ⟨_, h.symm⟩)

/-- `pyPow` raises only `OverflowError`, `ZeroDivisionError`, or the
complex-result marker. -/
lemma pyPow_error (pA : ℚ → ℚ → ℚ) (a b : Number) (e : PyErr)
    (h : pyPow pA a b = .error e) :
    e = .overflowError ∨ (∃ m, e = .zeroDivisionError m) ∨
      e = .valueError "complex result (unreachable from Calculator.power)" := by
  cases a with
  | int za =>
    cases b with
    | int zb =>
      simp only [pyPow] at h
      repeat' split at h
      all_goals simp_all
      all_goals
        first
          | tauto
          | exact Or.inr (Or.inl ⟨_, h.symm⟩)
    | float fb =>
      simp only [pyPow] at h
      rcases except_bind_error _ _ _ h with h1 | ⟨fa, hfa, h2⟩
      · exact Or.inl (numToFl_error _ _ h1)
      · rcases except_bind_error _ _ _ h2 with h3 | ⟨fb2, hfb, h4⟩
        · exact Or.inl (numToFl_error _ _ h3)
        · cases hfp : Fl.fpow pA fa fb2 <;> rw [hfp] at h4 <;> simp at h4
          subst h4
          exact fpow_error pA fa fb2 _ hfp
  | float fa =>
    have hsplit : (do
        let x ← numToFl (Number.float fa)
        let y ← numToFl b
        match Fl.fpow pA x y with
        | .error err => .error err
        | .ok f => (.ok (.float f) : Except PyErr Number)) = .error e := by
      cases b <;> simpa [pyPow] using h
    rcases except_bind_error _ _ _ hsplit with h1 | ⟨x, hx, h2⟩
    · exact Or.inl (numToFl_error _ _ h1)
    · rcases except_bind_error _ _ _ h2 with h3 | ⟨y, hy, h4⟩
      · exact Or.inl (numToFl_error _ _ h3)
      · cases hfp : Fl.fpow pA x y <;> rw [hfp] at h4 <;> simp at h4
        subst h4
        exact fpow_error pA x y _ hfp

/-- `math.isnan` raises only `OverflowError`. -/
lemma chkNan_error (n : Number) (e : PyErr) (h : chkNan n = .error e) :
    e = .overflowError := by
  cases n with
  | int z =>
    simp only [chkNan] at h
    split at h
    · simpa using h.symm
    · simp at h
  | float f => simp [chkNan] at h

/-- `math.isinf` raises only `OverflowError`. -/
lemma chkInf_error (n : Number) (e : PyErr) (h : chkInf n = .error e) :
    e = .overflowError := by
  cases n with
  | int z =>
    simp only [chkInf] at h
    split at h
    · simpa using h.symm
    · simp at h
  | float f => simp [chkInf] at h

/-- A successful `powerBody` run has passed the `isnan`/`isinf` rejection:
the returned value tests clean on both. -/
lemma powerBody_ok (pA : ℚ → ℚ → ℚ) (base expo v : Number)
    (h : Calculator.powerBody pA base expo = .ok v) :
    chkNan v = .ok false ∧ chkInf v = .ok false := by
  unfold Calculator.powerBody at h
  split at h
  · simp at h
  · rcases except_bind_ok _ _ _ h with ⟨r, hr, h2⟩
    rcases except_bind_ok _ _ _ h2 with ⟨isN, hN, h3⟩
    rcases except_bind_ok _ _ _ h3 with ⟨isI, hI, h4⟩
    split at h4
    · simp at h4
    · rename_i hni
      simp only [Except.ok.injEq] at h4
      subst h4
      have hb : isN = false ∧ isI = false := by
        cases isN <;> cases isI <;> simp_all
      exact ⟨hb.1 ▸ hN, hb.2 ▸ hI⟩

/-- With the negative-base guard passed, `powerBody` raises only the
overflow, zero-division, invalid-number or complex-result errors — never the
guard's own message. -/
lemma powerBody_error_nguard (pA : ℚ → ℚ → ℚ) (base expo : Number) (e : PyErr)
    (hg : (pyLtZero base && !expo.isInt) = false)
    (h : Calculator.powerBody pA base expo = .error e) :
    e = .overflowError ∨ (∃ m, e = .zeroDivisionError m) ∨
      e = .valueError "Operation resulted in invalid number" ∨
      e = .valueError "complex result (unreachable from Calculator.power)" := by
  unfold Calculator.powerBody at h
  rw [hg] at h
  simp only [Bool.false_eq_true, if_false] at h
  rcases except_bind_error _ _ _ h with h1 | ⟨r, hr, h2⟩
  · rcases pyPow_error pA base expo e h1 with h' | h' | h' <;> tauto
  · rcases except_bind_error _ _ _ h2 with h3 | ⟨isN, hN, h4⟩
    · exact Or.inl (chkNan_error _ _ h3)
    · rcases except_bind_error _ _ _ h4 with h5 | ⟨isI, hI, h6⟩
      · exact Or.inl (chkInf_error _ _ h5)
      · split at h6
        · right; right; left; simpa using h6.symm
        · simp at h6

/-- With the guard raised, `powerBody` returns exactly the guard error. -/
lemma powerBody_guard (pA : ℚ → ℚ → ℚ) (base expo : Number)
    (hg : (pyLtZero base && !expo.isInt) = true) :
    Calculator.powerBody pA base expo =
      .error (.valueError "Cannot raise negative number to non-integer power") := by
  unfold Calculator.powerBody
  rw [hg]
  simp

/-! ## C4 — domain validation -/

/-- C4 counterexample: the claim "every one of add, subtract, multiply,
divide, power, square_root rejects overflow/NaN/Infinity results" and the
listed raise-iff conditions fail on the code at concrete inputs:
`add(inf, 1)` returns `inf` instead of raising; `divide(2^1030, 2.0)` raises
`OverflowError` although the divisor is nonzero; `square_root(2^1030)` raises
`OverflowError` although the radicand is positive; and `power(0, -1)` raises
`ZeroDivisionError` although the base is not negative and no overflow/NaN
result is involved. -/
theorem domain_validation_cex :
    (Calculator.add (.float .inf) (.int 1) ⟨.int 0⟩).1 = .ok (.float .inf) ∧
    (Calculator.divide (.int ((1 <<< 1030 : ℕ) : ℤ)) (.float (.finite 2))
        ⟨.int 0⟩).1 = .error .overflowError ∧
    (Calculator.square_root (fun _ => 0) (.int ((1 <<< 1030 : ℕ) : ℤ))
        ⟨.int 0⟩).1 = .error .overflowError ∧
    (Calculator.power (fun _ _ => 0) (.int 0) (.int (-1)) ⟨.int 0⟩).1 =
      .error (.zeroDivisionError "0.0 cannot be raised to a negative power") := by
  refine ⟨by decide, by decide, by decide, by decide⟩

/-- C4 (amended): `divide` raises its divide-by-zero error iff the divisor
compares equal to 0 and otherwise passes the division through unchecked (the
division itself can raise only `OverflowError`, and returns `inf`/`nan`
silently); `square_root` raises its negative-radicand error iff the radicand
is negative and otherwise passes `math.sqrt` through unchecked (which can
raise only `OverflowError` on a huge int, and returns `inf`/`nan` silently);
`power` raises its negative-base error iff the base is negative and the
exponent is not a Python `int`, never returns a value on which `isnan` or
`isinf` would fire, and never lets a raw `OverflowError` escape (it converts
it to `ValueError`), though it can also raise `ZeroDivisionError` for a zero
base with a negative exponent; and `add`, `subtract`, `multiply` perform no
result validation at all — they return exactly what the arithmetic produced,
raising only the operand-conversion `OverflowError`. -/
theorem domain_validation_amended (pA : ℚ → ℚ → ℚ) (sA : ℚ → ℚ)
    (a b n base expo : Number) (s : CalcState) :
    (Calculator.add a b s).1 = pyAdd a b ∧
    (Calculator.subtract a b s).1 = pySub a b ∧
    (Calculator.multiply a b s).1 = pyMul a b ∧
    (∀ e, (Calculator.add a b s).1 = .error e → e = .overflowError) ∧
    ((Calculator.divide a b s).1 =
        .error (.zeroDivisionError "Cannot divide by zero") ↔
      pyEqZero b = true) ∧
    (pyEqZero b = false → (Calculator.divide a b s).1 = pyDiv a b) ∧
    ((Calculator.square_root sA n s).1 =
        .error (.valueError "Cannot calculate square root of negative number") ↔
      pyLtZero n = true) ∧
    (pyLtZero n = false → (Calculator.square_root sA n s).1 = pySqrt sA n) ∧
    ((Calculator.power pA base expo s).1 =
        .error (.valueError "Cannot raise negative number to non-integer power") ↔
      (pyLtZero base && !expo.isInt) = true) ∧
    (∀ v, (Calculator.power pA base expo s).1 = .ok v →
      chkNan v = .ok false ∧ chkInf v = .ok false) ∧
    (Calculator.power pA base expo s).1 ≠ .error .overflowError := by
  have hadd : (Calculator.add a b s).1 = pyAdd a b := by
    cases hpa : pyAdd a b <;> simp [Calculator.add, hpa]
  have hsub : (Calculator.subtract a b s).1 = pySub a b := by
    cases hpa : pySub a b <;> simp [Calculator.subtract, hpa]
  have hmul : (Calculator.multiply a b s).1 = pyMul a b := by
    cases hpa : pyMul a b <;> simp [Calculator.multiply, hpa]
  have hdivpass : pyEqZero b = false → (Calculator.divide a b s).1 = pyDiv a b := by
    intro hb
    simp only [Calculator.divide, hb, Bool.false_eq_true, if_false]
    cases hpd : pyDiv a b <;> simp [hpd]
  have hsqrtpass : pyLtZero n = false →
      (Calculator.square_root sA n s).1 = pySqrt sA n := by
    intro hn
    simp only [Calculator.square_root, hn, Bool.false_eq_true, if_false]
    cases hps : pySqrt sA n <;> simp [hps]
  refine ⟨hadd, hsub, hmul, ?_, ?_, hdivpass, ?_, hsqrtpass, ?_, ?_, ?_⟩
  · intro e he
    rw [hadd] at he
    exact pyAdd_error a b e he
  · constructor
    · intro h
      by_cases hb : pyEqZero b = true
      · exact hb
      · exfalso
        rw [hdivpass (by simpa using hb)] at h
        have := pyDiv_error a b _ h
        simp at this
    · intro hb
      simp [Calculator.divide, hb]
  · constructor
    · intro h
      by_cases hn : pyLtZero n = true
      · exact hn
      · exfalso
        rw [hsqrtpass (by simpa using hn)] at h
        rcases pySqrt_error sA n _ h with h' | h' <;> simp at h'
    · intro hn
      simp [Calculator.square_root, hn]
  · constructor
    · intro h
      by_cases hg : (pyLtZero base && !expo.isInt) = true
      · exact hg
      · exfalso
        have hg' : (pyLtZero base && !expo.isInt) = false := by simpa using hg
        cases hbody : Calculator.powerBody pA base expo with
        | ok r => simp [Calculator.power, hbody] at h
        | error e =>
          rcases powerBody_error_nguard pA base expo e hg' hbody with
            h' | ⟨m, h'⟩ | h' | h' <;>
            subst h' <;> simp [Calculator.power, hbody] at h
    · intro hg
      have hbody := powerBody_guard pA base expo hg
      simp [Calculator.power, hbody]
  · intro v hv
    cases hbody : Calculator.powerBody pA base expo with
    | error e => cases e <;> simp [Calculator.power, hbody] at hv
    | ok r =>
      simp only [Calculator.power, hbody, Except.ok.injEq] at hv
      exact hv ▸ powerBody_ok pA base expo r hbody
  · cases hbody : Calculator.powerBody pA base expo with
    | error e => cases e <;> simp [Calculator.power, hbody]
    | ok r => simp [Calculator.power, hbody]

/-- Witness for C4 (amended) at concrete inputs. -/
theorem domain_validation_amended_witness :
    (Calculator.divide (.int 10) (.int 4) ⟨.int 0⟩).1 =
      pyDiv (.int 10) (.int 4) ∧
    (Calculator.square_root (fun _ => 3) (.int 9) ⟨.int 0⟩).1 =
      pySqrt (fun _ => 3) (.int 9) ∧
    ((Calculator.power (fun _ _ => 0) (.int (-2)) (.float (.finite (1/2)))
        ⟨.int 0⟩).1 =
      .error (.valueError "Cannot raise negative number to non-integer power")) := by
  have h := domain_validation_amended (fun _ _ => 0) (fun _ => 3)
    (.int 10) (.int 4) (.int 9) (.int (-2)) (.float (.finite (1/2))) ⟨.int 0⟩
  refine ⟨h.2.2.2.2.2.1 (by decide), h.2.2.2.2.2.2.2.1 (by decide), ?_⟩
  exact h.2.2.2.2.2.2.2.2.1.mpr (by decide)

/-- The record just appended by `add_operation` is the most recent entry
whenever the capacity is at least 1. -/
lemma add_operation_getLast (now : ℕ) (op : String) (args : List Number)
    (res : Number) (h : HistoryState) (hcap : 1 ≤ h.max_size) :
    (History.add_operation now op args res h).operations.getLast? =
      some ⟨now, op, args, res⟩ := by
  unfold History.add_operation
  simp only []
  split
  · rename_i hov
    rcases hops : h.operations with _ | ⟨x, xs⟩
    · rw [hops] at hov
      simp at hov
      omega
    · simp [List.getLast?_append]
  · simp [List.getLast?_append]

/-- Appending via `add_operation` grows the log to
`min (length + 1) max_size` when the invariant held before. -/
lemma add_operation_length (now : ℕ) (op : String) (args : List Number)
    (res : Number) (h : HistoryState) (hm : 0 ≤ h.max_size)
    (hlen : (h.operations.length : ℤ) ≤ h.max_size) :
    ((History.add_operation now op args res h).operations.length : ℤ) =
      min ((h.operations.length : ℤ) + 1) h.max_size := by
  unfold History.add_operation
  simp only []
  split
  · rename_i hov
    simp only [List.length_tail, List.length_append, List.length_singleton] at hov ⊢
    omega
  · rename_i hov
    simp only [List.length_append, List.length_singleton] at hov ⊢
    omega

/-- `add_operation` preserves the configured capacity. -/
lemma add_operation_max_size (now : ℕ) (op : String) (args : List Number)
    (res : Number) (h : HistoryState) :
    (History.add_operation now op args res h).max_size = h.max_size := rfl

/-! ## C6 — facade add records its operation -/

/-- C6: for int arguments the facade's `add(a, b)` returns exactly the sum
`a + b`, and in general every successful `add` returns the Python sum of its
arguments; immediately afterwards the most recent history entry (the head of
the most-recent-first view) is the record with tag `"add"`, operands
`[a, b]` and result equal to the returned value.  (The capacity hypothesis
holds in the facade, which always constructs `History()` with capacity
100.) -/
theorem facade_add_records (now : ℕ) (s : FacadeState)
    (hcap : 1 ≤ s.history.max_size) :
    (∀ za zb : ℤ,
      (CWH.add now (.int za) (.int zb) s).1 = .ok (.int (za + zb)) ∧
      (History.get_all_operations
          (CWH.add now (.int za) (.int zb) s).2.history).head? =
        some ⟨now, "add", [.int za, .int zb], .int (za + zb)⟩) ∧
    (∀ a b v, (CWH.add now a b s).1 = .ok v →
      pyAdd a b = .ok v ∧
      (History.get_all_operations (CWH.add now a b s).2.history).head? =
        some ⟨now, "add", [a, b], v⟩) := by
  have key : ∀ a b v, (CWH.add now a b s).1 = .ok v →
      pyAdd a b = .ok v ∧
      (History.get_all_operations (CWH.add now a b s).2.history).head? =
        some ⟨now, "add", [a, b], v⟩ := by
    intro a b v hv
    cases hpa : pyAdd a b with
    | error e => simp [CWH.add, Calculator.add, hpa] at hv
    | ok r =>
      simp only [CWH.add, Calculator.add, hpa, Except.ok.injEq] at hv ⊢
      subst hv
      refine ⟨rfl, ?_⟩
      unfold History.get_all_operations
      rw [List.head?_reverse]
      exact add_operation_getLast now "add" [a, b] r s.history hcap
  refine ⟨fun za zb => ?_, key⟩
  have hok : pyAdd (.int za) (.int zb) = .ok (.int (za + zb)) := rfl
  have h1 : (CWH.add now (.int za) (.int zb) s).1 = .ok (.int (za + zb)) := by
    simp [CWH.add, Calculator.add, hok]
  exact ⟨h1, (key _ _ _ h1).2⟩

/-- Witness for C6 at a concrete state and inputs. -/
theorem facade_add_records_witness :
    (CWH.add 7 (.int 10) (.int 5) CWH.init).1 = .ok (.int 15) ∧
    (History.get_all_operations
        (CWH.add 7 (.int 10) (.int 5) CWH.init).2.history).head? =
      some ⟨7, "add", [.int 10, .int 5], .int 15⟩ := by
  have h := (facade_add_records 7 CWH.init (by decide)).1 10 5
  exact h

/-! ## C1 — all-or-nothing coupling of evaluator and log -/

/-- C1: every facade operation either succeeds — returning the numeric result
and appending exactly one record (tag, operands, result = returned value) via
a single `add_operation` call, which grows the log to
`min (length + 1, capacity)` and makes the new record the most recent entry —
or fails, raising the calculator's error and leaving the history exactly as
it was; in particular `divide(x, 0)` raises `ZeroDivisionError` and the
operation count is unchanged. -/
theorem facade_log_atomicity (pA : ℚ → ℚ → ℚ) (sA : ℚ → ℚ) (now : ℕ)
    (a b n base expo : Number) (s : FacadeState) :
    (∀ v, (CWH.add now a b s).1 = .ok v →
      (CWH.add now a b s).2.history =
        History.add_operation now "add" [a, b] v s.history) ∧
    ((∃ e, (CWH.add now a b s).1 = .error e) →
      (CWH.add now a b s).2.history = s.history) ∧
    (∀ v, (CWH.subtract now a b s).1 = .ok v →
      (CWH.subtract now a b s).2.history =
        History.add_operation now "subtract" [a, b] v s.history) ∧
    ((∃ e, (CWH.subtract now a b s).1 = .error e) →
      (CWH.subtract now a b s).2.history = s.history) ∧
    (∀ v, (CWH.multiply now a b s).1 = .ok v →
      (CWH.multiply now a b s).2.history =
        History.add_operation now "multiply" [a, b] v s.history) ∧
    ((∃ e, (CWH.multiply now a b s).1 = .error e) →
      (CWH.multiply now a b s).2.history = s.history) ∧
    (∀ v, (CWH.divide now a b s).1 = .ok v →
      (CWH.divide now a b s).2.history =
        History.add_operation now "divide" [a, b] v s.history) ∧
    ((∃ e, (CWH.divide now a b s).1 = .error e) →
      (CWH.divide now a b s).2.history = s.history) ∧
    (∀ v, (CWH.power pA now base expo s).1 = .ok v →
      (CWH.power pA now base expo s).2.history =
        History.add_operation now "power" [base, expo] v s.history) ∧
    ((∃ e, (CWH.power pA now base expo s).1 = .error e) →
      (CWH.power pA now base expo s).2.history = s.history) ∧
    (∀ v, (CWH.square_root sA now n s).1 = .ok v →
      (CWH.square_root sA now n s).2.history =
        History.add_operation now "square_root" [n] v s.history) ∧
    ((∃ e, (CWH.square_root sA now n s).1 = .error e) →
      (CWH.square_root sA now n s).2.history = s.history) ∧
    (pyEqZero b = true →
      (CWH.divide now a b s).1 =
        .error (.zeroDivisionError "Cannot divide by zero") ∧
      History.get_operation_count (CWH.divide now a b s).2.history =
        History.get_operation_count s.history) ∧
    (∀ op args res, 0 ≤ s.history.max_size →
      (s.history.operations.length : ℤ) ≤ s.history.max_size →
      ((History.add_operation now op args res s.history).operations.length : ℤ) =
        min ((s.history.operations.length : ℤ) + 1) s.history.max_size) ∧
    (∀ op args res, 1 ≤ s.history.max_size →
      (History.add_operation now op args res s.history).operations.getLast? =
        some ⟨now, op, args, res⟩) := by
  have hadd1 : ∀ r, pyAdd a b = .ok r →
      CWH.add now a b s =
        (.ok r, ⟨⟨r⟩, History.add_operation now "add" [a, b] r s.history⟩) := by
    intro r hr
    simp [CWH.add, Calculator.add, hr]
  have hadd2 : ∀ e, pyAdd a b = .error e →
      CWH.add now a b s = (.error e, { s with calculator := s.calculator }) := by
    intro e he
    simp [CWH.add, Calculator.add, he]
  have hsub1 : ∀ r, pySub a b = .ok r →
      CWH.subtract now a b s =
        (.ok r, ⟨⟨r⟩, History.add_operation now "subtract" [a, b] r s.history⟩) := by
    intro r hr
    simp [CWH.subtract, Calculator.subtract, hr]
  have hsub2 : ∀ e, pySub a b = .error e →
      CWH.subtract now a b s = (.error e, { s with calculator := s.calculator }) := by
    intro e he
    simp [CWH.subtract, Calculator.subtract, he]
  have hmul1 : ∀ r, pyMul a b = .ok r →
      CWH.multiply now a b s =
        (.ok r, ⟨⟨r⟩, History.add_operation now "multiply" [a, b] r s.history⟩) := by
    intro r hr
    simp [CWH.multiply, Calculator.multiply, hr]
  have hmul2 : ∀ e, pyMul a b = .error e →
      CWH.multiply now a b s = (.error e, { s with calculator := s.calculator }) := by
    intro e he
    simp [CWH.multiply, Calculator.multiply, he]
  have hdiv1 : ∀ r, pyEqZero b = false → pyDiv a b = .ok r →
      CWH.divide now a b s =
        (.ok r, ⟨⟨r⟩, History.add_operation now "divide" [a, b] r s.history⟩) := by
    intro r hb hr
    simp [CWH.divide, Calculator.divide, hb, hr]
  have hdivE : (∃ e, (CWH.divide now a b s).1 = .error e) →
      (CWH.divide now a b s).2.history = s.history := by
    rintro ⟨e, he⟩
    by_cases hb : pyEqZero b
    · simp [CWH.divide, Calculator.divide, hb]
    · cases hpd : pyDiv a b with
      | error e2 =>
        simp [CWH.divide, Calculator.divide, hb, hpd]
      | ok r =>
        rw [(hdiv1 r (by simpa using hb) hpd)] at he
        simp at he
  have hpow1 : ∀ r, Calculator.powerBody pA base expo = .ok r →
      CWH.power pA now base expo s =
        (.ok r, ⟨⟨r⟩, History.add_operation now "power" [base, expo] r s.history⟩) := by
    intro r hr
    simp [CWH.power, Calculator.power, hr]
  have hsq1 : ∀ r, pyLtZero n = false → pySqrt sA n = .ok r →
      CWH.square_root sA now n s =
        (.ok r, ⟨⟨r⟩, History.add_operation now "square_root" [n] r s.history⟩) := by
    intro r hn hr
    simp [CWH.square_root, Calculator.square_root, hn, hr]
  refine ⟨?_, ?_, ?_, ?_, ?_, ?_, ?_, hdivE, ?_, ?_, ?_, ?_, ?_, ?_, ?_⟩
  · intro v hv
    cases hpa : pyAdd a b with
    | error e => rw [(hadd2 e hpa)] at hv; simp at hv
    | ok r =>
      rw [(hadd1 r hpa)] at hv ⊢
      injection hv with hv
      rw [hv]
  · rintro ⟨e, he⟩
    cases hpa : pyAdd a b with
    | error e2 => rw [(hadd2 e2 hpa)]
    | ok r => rw [(hadd1 r hpa)] at he; simp at he
  · intro v hv
    cases hpa : pySub a b with
    | error e => rw [(hsub2 e hpa)] at hv; simp at hv
    | ok r =>
      rw [(hsub1 r hpa)] at hv ⊢
      injection hv with hv
      rw [hv]
  · rintro ⟨e, he⟩
    cases hpa : pySub a b with
    | error e2 => rw [(hsub2 e2 hpa)]
    | ok r => rw [(hsub1 r hpa)] at he; simp at he
  · intro v hv
    cases hpa : pyMul a b with
    | error e => rw [(hmul2 e hpa)] at hv; simp at hv
    | ok r =>
      rw [(hmul1 r hpa)] at hv ⊢
      injection hv with hv
      rw [hv]
  · rintro ⟨e, he⟩
    cases hpa : pyMul a b with
    | error e2 => rw [(hmul2 e2 hpa)]
    | ok r => rw [(hmul1 r hpa)] at he; simp at he
  · intro v hv
    by_cases hb : pyEqZero b
    · have h1 : (CWH.divide now a b s).1 =
          .error (.zeroDivisionError "Cannot divide by zero") := by
        simp [CWH.divide, Calculator.divide, hb]
      rw [h1] at hv
      simp at hv
    · cases hpd : pyDiv a b with
      | error e =>
        have h1 : (CWH.divide now a b s).1 = .error e := by
          simp [CWH.divide, Calculator.divide, hb, hpd]
        rw [h1] at hv
        simp at hv
      | ok r =>
        rw [(hdiv1 r (by simpa using hb) hpd)] at hv ⊢
        injection hv with hv
        rw [hv]
  · intro v hv
    cases hbody : Calculator.powerBody pA base expo with
    | error e =>
      cases e <;> simp [CWH.power, Calculator.power, hbody] at hv
    | ok r =>
      rw [(hpow1 r hbody)] at hv ⊢
      injection hv with hv
      rw [hv]
  · rintro ⟨e, he⟩
    cases hbody : Calculator.powerBody pA base expo with
    | error e2 => cases e2 <;> simp [CWH.power, Calculator.power, hbody]
    | ok r => rw [(hpow1 r hbody)] at he; simp at he
  · intro v hv
    by_cases hn : pyLtZero n
    · have h1 : (CWH.square_root sA now n s).1 =
          .error (.valueError "Cannot calculate square root of negative number") := by
        simp [CWH.square_root, Calculator.square_root, hn]
      rw [h1] at hv
      simp at hv
    · cases hps : pySqrt sA n with
      | error e =>
        have h1 : (CWH.square_root sA now n s).1 = .error e := by
          simp [CWH.square_root, Calculator.square_root, hn, hps]
        rw [h1] at hv
        simp at hv
      | ok r =>
        rw [(hsq1 r (by simpa using hn) hps)] at hv ⊢
        injection hv with hv
        rw [hv]
  · rintro ⟨e, he⟩
    by_cases hn : pyLtZero n
    · simp [CWH.square_root, Calculator.square_root, hn]
    · cases hps : pySqrt sA n with
      | error e2 =>
        simp [CWH.square_root, Calculator.square_root, hn, hps]
      | ok r =>
        rw [(hsq1 r (by simpa using hn) hps)] at he
        simp at he
  · intro hb
    have hzd : CWH.divide now a b s =
        (.error (.zeroDivisionError "Cannot divide by zero"),
         { s with calculator := s.calculator }) := by
      simp [CWH.divide, Calculator.divide, hb]
    rw [hzd]
    exact ⟨rfl, rfl⟩
  · intro op args res hm hlen
    exact add_operation_length now op args res s.history hm hlen
  · intro op args res hcap
    exact add_operation_getLast now op args res s.history hcap

/-- Witness for C1 at concrete inputs: a successful `add` appends its record,
and `divide(1, 0)` raises leaving the count unchanged. -/
theorem facade_log_atomicity_witness :
    (CWH.add 3 (.int 1) (.int 2) CWH.init).2.history =
      History.add_operation 3 "add" [.int 1, .int 2] (.int 3) CWH.init.history ∧
    (CWH.divide 4 (.int 1) (.int 0) CWH.init).1 =
      .error (.zeroDivisionError "Cannot divide by zero") ∧
    History.get_operation_count (CWH.divide 4 (.int 1) (.int 0) CWH.init).2.history =
      History.get_operation_count CWH.init.history := by
  have h := facade_log_atomicity (fun _ _ => 0) (fun _ => 0) 3
    (.int 1) (.int 2) (.int 0) (.int 0) (.int 0) CWH.init
  have h2 := facade_log_atomicity (fun _ _ => 0) (fun _ => 0) 4
    (.int 1) (.int 0) (.int 0) (.int 0) (.int 0) CWH.init
  have hz := h2.2.2.2.2.2.2.2.2.2.2.2.2.1 (by decide)
  exact ⟨h.1 (.int 3) (by decide), hz.1, hz.2⟩

/-! ## C2 — capacity invariant and FIFO eviction -/

/-- Dropping the head commutes with a nonempty prepended block. -/
lemma tail_append_of_ne_nil {α : Type} (l l2 : List α) (h : l ≠ []) :
    (l ++ l2).tail = l.tail ++ l2 := by
  cases l with
  | nil => simp at h
  | cons x xs => simp

/-- Unfolding of `add_operation` as a single conditional record update. -/
lemma add_operation_eq (now : ℕ) (op : String) (args : List Number)
    (res : Number) (h : HistoryState) :
    History.add_operation now op args res h =
      ⟨h.max_size,
       if h.max_size <
           ((h.operations ++ [(⟨now, op, args, res⟩ : Rec)]).length : ℤ)
       then (h.operations ++ [(⟨now, op, args, res⟩ : Rec)]).tail
       else h.operations ++ [(⟨now, op, args, res⟩ : Rec)]⟩ := rfl

/-- Replaying records over a history satisfying the capacity invariant keeps
exactly the within-capacity suffix of old-then-new records. -/
lemma appendAll_ops (rs : List Rec) (h : HistoryState)
    (hm : 0 ≤ h.max_size) (hlen : (h.operations.length : ℤ) ≤ h.max_size) :
    (appendAll rs h).max_size = h.max_size ∧
    (appendAll rs h).operations =
      (h.operations ++ rs).drop
        (h.operations.length + rs.length - h.max_size.toNat) := by
  induction rs generalizing h with
  | nil =>
    refine ⟨rfl, ?_⟩
    have hz : h.operations.length + ([] : List Rec).length - h.max_size.toNat = 0 := by
      simp only [List.length_nil, Nat.add_zero]
      omega
    rw [hz]
    simp [appendAll]
  | cons r rs ih =>
    have heta : (⟨r.timestamp, r.operation, r.operands, r.result⟩ : Rec) = r := rfl
    have hstep : appendAll (r :: rs) h =
        appendAll rs
          (History.add_operation r.timestamp r.operation r.operands r.result h) := rfl
    have hbase := add_operation_eq r.timestamp r.operation r.operands r.result h
    rw [heta] at hbase
    have hlr : (h.operations ++ [r]).length = h.operations.length + 1 := by simp
    have hlt : (h.operations ++ [r]).tail.length = h.operations.length := by simp
    by_cases hov : h.max_size < ((h.operations ++ [r]).length : ℤ)
    · have h1 : History.add_operation r.timestamp r.operation r.operands r.result h =
          ⟨h.max_size, (h.operations ++ [r]).tail⟩ := by
        rw [hbase, if_pos hov]
      have hlen1 : ((((h.operations ++ [r]).tail).length : ℤ)) ≤ h.max_size := by
        rw [hlt]
        exact hlen
      have ihr := ih ⟨h.max_size, (h.operations ++ [r]).tail⟩ hm hlen1
      rw [hstep, h1]
      refine ⟨ihr.1, ?_⟩
      rw [ihr.2]
      simp only []
      have hmaxlen : (h.operations.length : ℤ) = h.max_size := by
        rw [hlr] at hov
        push_cast at hov
        omega
      have htail : (h.operations ++ [r]).tail ++ rs =
          ((h.operations ++ [r]) ++ rs).tail :=
        (tail_append_of_ne_nil _ _ (by simp)).symm
      rw [htail]
      have hassoc : (h.operations ++ [r]) ++ rs = h.operations ++ (r :: rs) := by
        simp
      rw [hassoc]
      rw [hlt, ← List.drop_one, List.drop_drop]
      congr 1
      simp only [List.length_cons]
      omega
    · have h1 : History.add_operation r.timestamp r.operation r.operands r.result h =
          ⟨h.max_size, h.operations ++ [r]⟩ := by
        rw [hbase, if_neg hov]
      have hlen1 : (((h.operations ++ [r])).length : ℤ) ≤ h.max_size := by
        rw [hlr]
        push_cast
        rw [hlr] at hov
        push_cast at hov
        omega
      have ihr := ih ⟨h.max_size, h.operations ++ [r]⟩ hm hlen1
      rw [hstep, h1]
      refine ⟨ihr.1, ?_⟩
      rw [ihr.2]
      simp only []
      have hassoc : (h.operations ++ [r]) ++ rs = h.operations ++ (r :: rs) := by
        simp
      rw [hassoc]
      congr 1
      rw [hlr]
      simp only [List.length_cons]
      omega

/-- C2 counterexample: `load_from_file` replaces the operations list with the
loaded sequence without any truncation, so loading a 2-record file into a
capacity-1 log leaves `length(log) = 2 > capacity = 1` — the claimed
invariant `length(log) <= capacity` does not hold after every operation. -/
theorem capacity_invariant_cex :
    CWH.load_from_file lenIso (.content (.arr [cexObj, cexObj])) cexState =
      some (true, ⟨⟨.int 0⟩,
        ⟨1, [⟨2, "add", [.int 1], .int 1⟩, ⟨2, "add", [.int 1], .int 1⟩]⟩⟩) ∧
    ¬(((⟨1, [⟨2, "add", [.int 1], .int 1⟩, ⟨2, "add", [.int 1], .int 1⟩]⟩ :
          HistoryState).operations.length : ℤ) ≤
        (⟨1, [⟨2, "add", [.int 1], .int 1⟩, ⟨2, "add", [.int 1], .int 1⟩]⟩ :
          HistoryState).max_size) := by
  refine ⟨by decide, by decide⟩

/-- C2 (amended): the invariant `length(log) ≤ capacity` is preserved by
every `add_operation` (append) from a state satisfying it; when an append
would exceed capacity exactly the oldest record (the head of the
insertion-ordered list) is evicted, strict FIFO; every sequence of operations
replayed into a fresh log (one `add_operation` per successful facade
operation, as each facade method performs) leaves at most `capacity` records;
and when the sequence is longer than `capacity ≥ 0`, the count equals the
capacity and `recent(capacity)` returns exactly the last `capacity` records
in most-recent-first order.  `load_from_file`, however, installs the loaded
list without truncation and can leave the log over capacity (see the
counterexample). -/
theorem capacity_fifo_amended (h : HistoryState) (now : ℕ) (op : String)
    (args : List Number) (res : Number) (rs : List Rec) (cap : ℤ) :
    (0 ≤ h.max_size → (h.operations.length : ℤ) ≤ h.max_size →
      ((History.add_operation now op args res h).operations.length : ℤ) ≤
        h.max_size) ∧
    (h.max_size < (h.operations.length : ℤ) + 1 →
      (History.add_operation now op args res h).operations =
        (h.operations ++ [(⟨now, op, args, res⟩ : Rec)]).tail) ∧
    (0 ≤ cap →
      ((appendAll rs ⟨cap, []⟩).operations.length : ℤ) ≤ cap) ∧
    (0 ≤ cap → cap < (rs.length : ℤ) →
      History.get_operation_count (appendAll rs ⟨cap, []⟩) = cap.toNat ∧
      History.get_last_operations cap (appendAll rs ⟨cap, []⟩) =
        (rs.drop (rs.length - cap.toNat)).reverse) := by
  refine ⟨?_, ?_, ?_, ?_⟩
  · intro hm hlen
    rw [add_operation_length now op args res h hm hlen]
    omega
  · intro hov
    rw [add_operation_eq]
    simp only []
    rw [if_pos (by simpa using hov)]
  · intro hcap
    have happ := appendAll_ops rs ⟨cap, []⟩ hcap (by simpa using hcap)
    rw [happ.2]
    simp only [List.nil_append, List.length_nil, List.length_drop]
    omega
  · intro hcap hover
    have happ := appendAll_ops rs ⟨cap, []⟩ hcap (by simpa using hcap)
    have hops : (appendAll rs ⟨cap, []⟩).operations =
        rs.drop (rs.length - cap.toNat) := by
      rw [happ.2]
      simp
    have hlen : (appendAll rs ⟨cap, []⟩).operations.length = cap.toNat := by
      rw [hops, List.length_drop]
      omega
    refine ⟨hlen, ?_⟩
    by_cases hc0 : cap ≤ 0
    · have : cap = 0 := le_antisymm hc0 hcap
      subst this
      unfold History.get_last_operations
      rw [if_pos le_rfl]
      have : rs.length - (0 : ℤ).toNat = rs.length := by simp
      rw [this, List.drop_length, List.reverse_nil]
    · have hcpos : 0 < cap := by omega
      rw [get_last_operations_eq_take cap _ hcpos, hops]
      apply List.take_of_length_le
      rw [List.length_reverse, List.length_drop]
      omega

/-- Witness for C2 (amended) at concrete inputs: invariant preservation,
eviction of the oldest entry, the replayed-sequence capacity bound and the
over-capacity replay consequence. -/
theorem capacity_fifo_amended_witness :
    (((History.add_operation 9 "add" [] (.int 0)
        ⟨1, [recA]⟩).operations.length : ℤ) ≤ (1 : ℤ)) ∧
    (History.add_operation 9 "add" [] (.int 0) ⟨1, [recA]⟩).operations =
      (([recA] : List Rec) ++ [(⟨9, "add", [], .int 0⟩ : Rec)]).tail ∧
    (((appendAll [recA, recB] ⟨1, []⟩).operations.length : ℤ) ≤ (1 : ℤ)) ∧
    History.get_operation_count (appendAll [recA, recB] ⟨1, []⟩) =
      (1 : ℤ).toNat ∧
    History.get_last_operations 1 (appendAll [recA, recB] ⟨1, []⟩) =
      (([recA, recB] : List Rec).drop
        (([recA, recB] : List Rec).length - (1 : ℤ).toNat)).reverse := by
  have h1 := capacity_fifo_amended ⟨1, [recA]⟩ 9 "add" [] (.int 0) [recA, recB] 1
  have h4 := h1.2.2.2 (by decide) (by decide)
  exact ⟨h1.1 (by decide) (by decide), h1.2.1 (by decide),
    h1.2.2.1 (by decide), h4.1, h4.2⟩

/-! ## C3 — save/load round trip -/

/-- Decoding an encoded operand array recovers the operands. -/
lemma decodeNums_map (ns : List Number) :
    decodeNums (ns.map (fun n => .num n)) = some ns := by
  induction ns with
  | nil => rfl
  | cons n rest ih =>
    simp only [List.map_cons, decodeNums, ih, Option.bind_eq_bind,
      Option.some_bind]

/-- Decoding an encoded entry recovers the entry, given that the datetime
codec parses its own output. -/
lemma decodeOp_encodeOp (iso : ℕ → String) (fromIso : String → Option ℕ)
    (hinv : ∀ t, fromIso (iso t) = some t) (r : Rec) :
    decodeOp fromIso (encodeOp iso r) = some r := by
  simp only [encodeOp, decodeOp, hinv, decodeNums_map, Option.bind_eq_bind,
    Option.some_bind]

/-- C3: loading immediately after a successful save returns a record sequence
equal to the saved one — for each record the operation tag, the operand
sequence and the result are identical, and the timestamp is recovered through
the textual codec (Python's `datetime.fromisoformat` inverts
`datetime.isoformat` exactly at microsecond resolution, which is the
`hinv` hypothesis; any sub-representation precision loss would surface as a
failure of `hinv`). -/
theorem save_load_round_trip (iso : ℕ → String) (fromIso : String → Option ℕ)
    (hinv : ∀ t, fromIso (iso t) = some t) (ops : List Rec) :
    load_history fromIso (.content (save_history iso ops)) = some ops := by
  simp only [load_history, save_history, decodeOps]
  induction ops with
  | nil => rfl
  | cons r rest ih =>
    rw [List.map_cons, List.mapM_cons]
    rw [decodeOp_encodeOp iso fromIso hinv r]
    simp only [Option.bind_eq_bind, Option.some_bind] at ih ⊢
    rw [ih]
    rfl

/-- Witness for C3 at a concrete record list and codec. -/
theorem save_load_round_trip_witness :
    load_history (fun s => some s.length)
      (.content (save_history replIso [recA, recB])) = some [recA, recB] := by
  have h := save_load_round_trip replIso (fun s => some s.length)
    (fun t => by simp [replIso, String.length]) [recA, recB]
  exact h

/-! ## C9 — load_from_file semantics -/

/-- C9: with a configured persistence file, `load_from_file()` returns
`False` and leaves the whole facade state (calculator and history) unchanged
whenever loading yields an empty sequence — the file is absent, unreadable,
fails to parse, or holds an empty array — and it returns `True` and replaces
the entire in-memory operations list with the loaded records exactly when the
loaded sequence is non-empty (capacity and calculator state untouched). -/
theorem load_from_file_spec (fromIso : String → Option ℕ) (s : FacadeState)
    (j : Json) :
    CWH.load_from_file fromIso .absent s = some (false, s) ∧
    CWH.load_from_file fromIso .ioError s = some (false, s) ∧
    CWH.load_from_file fromIso .malformed s = some (false, s) ∧
    CWH.load_from_file fromIso (.content (.arr [])) s = some (false, s) ∧
    (decodeOps fromIso j = some [] →
      CWH.load_from_file fromIso (.content j) s = some (false, s)) ∧
    (∀ l, l ≠ [] → decodeOps fromIso j = some l →
      CWH.load_from_file fromIso (.content j) s =
        some (true, ⟨s.calculator, ⟨s.history.max_size, l⟩⟩)) := by
  refine ⟨rfl, rfl, rfl, rfl, ?_, ?_⟩
  · intro hd
    simp [CWH.load_from_file, load_history, hd]
  · intro l hl hd
    simp only [CWH.load_from_file, load_history, hd, Option.bind_eq_bind,
      Option.some_bind]
    rw [if_neg (by simpa using hl)]

/-- Witness for C9 at a concrete document and state. -/
theorem load_from_file_spec_witness :
    CWH.load_from_file lenIso (.content (.arr [])) cexState =
      some (false, cexState) ∧
    CWH.load_from_file lenIso (.content (.arr [cexObj])) cexState =
      some (true, ⟨cexState.calculator,
        ⟨cexState.history.max_size, [⟨2, "add", [.int 1], .int 1⟩]⟩⟩) := by
  have h := load_from_file_spec lenIso cexState (.arr [cexObj])
  refine ⟨h.2.2.2.1, ?_⟩
  exact h.2.2.2.2.2 [⟨2, "add", [.int 1], .int 1⟩] (by decide) (by decide)

/-! ## C7 — statistics aggregator -/

/-- The counting loop of `get_statistics`, relative to any accumulator. -/
lemma statTypes_go (ops : List Rec) (m : String → ℕ) (t : String) :
    (ops.foldl (fun m op => fun u => if u = op.operation then m u + 1 else m u)
      m) t = m t + ops.countP (fun r => r.operation == t) := by
  induction ops generalizing m with
  | nil => simp
  | cons r rest ih =>
    simp only [List.foldl_cons, List.countP_cons]
    rw [ih]
    by_cases ht : t = r.operation
    · have hbeq : (r.operation == t) = true := by
        rw [beq_iff_eq]
        exact ht.symm
      simp only [if_pos ht, hbeq, if_true]
      omega
    · have hbeq : (r.operation == t) = false := by
        rw [Bool.eq_false_iff, ne_eq, beq_iff_eq]
        exact fun hh => ht hh.symm
      simp only [if_neg ht, hbeq, Bool.false_eq_true, if_false]
      omega

/-- The `operation_types` dict maps each tag to its occurrence count. -/
lemma statTypes_eq (ops : List Rec) (t : String) :
    statTypes ops t = ops.countP (fun r => r.operation == t) := by
  unfold statTypes
  rw [statTypes_go]
  simp

/-- An int-by-int division whose exact quotient is within the float range. -/
lemma pyDiv_int_small (S len : ℤ) (hlen : 1 ≤ len) (hS : |(S : ℚ)| < floatLim) :
    pyDiv (.int S) (.int len) =
      .ok (.float (.finite ((S : ℚ) / (len : ℚ)))) := by
  simp only [pyDiv]
  rw [if_neg]
  rw [not_le, abs_div]
  have h2 : (1 : ℚ) ≤ |(len : ℚ)| := by
    rw [abs_of_pos (by exact_mod_cast hlen)]
    exact_mod_cast hlen
  calc |(S : ℚ)| / |(len : ℚ)| ≤ |(S : ℚ)| := div_le_self (abs_nonneg _) h2
    _ < floatLim := hS

/-- A successful `Except` bind on an `ok` value runs the continuation. -/
lemma except_ok_bind {ε α β : Type} (a : α) (f : α → Except ε β) :
    (Except.ok a : Except ε α) >>= f = f a := rfl


/-- The int and float overflow thresholds denote the same number. -/
lemma intLim_cast : ((intLim : ℤ) : ℚ) = floatLim := by
  rw [intLim, floatLim]
  push_cast
  ring

/-- Conversion of an in-range int to float succeeds and is exact. -/
lemma intToFl_ok (z : ℤ) (h : |(z : ℚ)| < floatLim) :
    intToFl z = .ok (.finite (z : ℚ)) := by
  rw [← intLim_cast] at h
  rcases abs_lt.mp h with ⟨h1, h2⟩
  have hz2 : z < intLim := by exact_mod_cast h2
  have hz1 : -intLim < z := by exact_mod_cast h1
  rw [intToFl, if_neg]
  push_neg
  exact ⟨by omega, by omega⟩

/-- Clamping an in-range value is the identity embedding into floats. -/
lemma clampFl_finite (q : ℚ) (h : |q| < floatLim) : clampFl q = .finite q := by
  rcases abs_lt.mp h with ⟨h1, h2⟩
  rw [clampFl, if_neg (by linarith), if_neg (by linarith)]

/-- Finite numbers are not `nan`. -/
lemma finite_ne_nan (w : Number) (h : isFiniteNum w = true) :
    w ≠ .float .nan := by
  intro hw
  rw [hw] at h
  simp [isFiniteNum] at h

/-- A doubly-embedded rational is below the top of the numeric order. -/
lemma coe2_lt_top (x : ℚ) :
    ((x : WithTop ℚ) : WithBot (WithTop ℚ)) < (⊤ : WithBot (WithTop ℚ)) :=
  WithBot.coe_lt_coe.mpr (WithTop.coe_lt_top x)

/-- `pyGtB` on non-`nan` numbers is the strict comparison of numeric
values. -/
lemma pyGtB_toVal (a b : Number) (ha : a ≠ .float .nan)
    (hb : b ≠ .float .nan) : pyGtB a b = true ↔ toVal b < toVal a := by
  cases a with
  | int za =>
    cases b with
    | int zb => simp [pyGtB, toVal, coe2_lt_top]
    | float fb =>
      cases fb with
      | finite q => simp [pyGtB, toVal, coe2_lt_top]
      | inf => simp [pyGtB, toVal, coe2_lt_top]
      | negInf => simp [pyGtB, toVal, coe2_lt_top]
      | nan => exact absurd rfl hb
  | float fa =>
    cases fa with
    | finite p =>
      cases b with
      | int zb => simp [pyGtB, toVal, coe2_lt_top]
      | float fb =>
        cases fb with
        | finite q => simp [pyGtB, toVal, coe2_lt_top]
        | inf => simp [pyGtB, toVal, coe2_lt_top]
        | negInf => simp [pyGtB, toVal, coe2_lt_top]
        | nan => exact absurd rfl hb
    | inf =>
      cases b with
      | int zb => simp [pyGtB, toVal, coe2_lt_top]
      | float fb =>
        cases fb with
        | finite q => simp [pyGtB, toVal, coe2_lt_top]
        | inf => simp [pyGtB, toVal, coe2_lt_top]
        | negInf => simp [pyGtB, toVal, coe2_lt_top]
        | nan => exact absurd rfl hb
    | negInf =>
      cases b with
      | int zb => simp [pyGtB, toVal, coe2_lt_top]
      | float fb =>
        cases fb with
        | finite q => simp [pyGtB, toVal, coe2_lt_top]
        | inf => simp [pyGtB, toVal, coe2_lt_top]
        | negInf => simp [pyGtB, toVal, coe2_lt_top]
        | nan => exact absurd rfl hb
    | nan => exact absurd rfl ha

/-- `pyLtB` on non-`nan` numbers is the strict comparison of numeric
values. -/
lemma pyLtB_toVal (a b : Number) (ha : a ≠ .float .nan)
    (hb : b ≠ .float .nan) : pyLtB a b = true ↔ toVal a < toVal b := by
  cases a with
  | int za =>
    cases b with
    | int zb => simp [pyLtB, toVal, coe2_lt_top]
    | float fb =>
      cases fb with
      | finite q => simp [pyLtB, toVal, coe2_lt_top]
      | inf => simp [pyLtB, toVal, coe2_lt_top]
      | negInf => simp [pyLtB, toVal, coe2_lt_top]
      | nan => exact absurd rfl hb
  | float fa =>
    cases fa with
    | finite p =>
      cases b with
      | int zb => simp [pyLtB, toVal, coe2_lt_top]
      | float fb =>
        cases fb with
        | finite q => simp [pyLtB, toVal, coe2_lt_top]
        | inf => simp [pyLtB, toVal, coe2_lt_top]
        | negInf => simp [pyLtB, toVal, coe2_lt_top]
        | nan => exact absurd rfl hb
    | inf =>
      cases b with
      | int zb => simp [pyLtB, toVal, coe2_lt_top]
      | float fb =>
        cases fb with
        | finite q => simp [pyLtB, toVal, coe2_lt_top]
        | inf => simp [pyLtB, toVal, coe2_lt_top]
        | negInf => simp [pyLtB, toVal, coe2_lt_top]
        | nan => exact absurd rfl hb
    | negInf =>
      cases b with
      | int zb => simp [pyLtB, toVal, coe2_lt_top]
      | float fb =>
        cases fb with
        | finite q => simp [pyLtB, toVal, coe2_lt_top]
        | inf => simp [pyLtB, toVal, coe2_lt_top]
        | negInf => simp [pyLtB, toVal, coe2_lt_top]
        | nan => exact absurd rfl hb
    | nan => exact absurd rfl ha

/-- The `max` fold of `get_statistics` on a `nan`-free list returns a member
that bounds every member in the numeric order. -/
lemma pyFoldMax_spec (xs : List Number) :
    ∀ c : Number, c ≠ .float .nan → (∀ w ∈ xs, w ≠ .float .nan) →
    (xs.foldl (fun c i => if pyGtB i c then i else c) c) ∈ c :: xs ∧
    ∀ w ∈ c :: xs,
      toVal w ≤ toVal (xs.foldl (fun c i => if pyGtB i c then i else c) c) := by
  induction xs with
  | nil =>
    intro c _ _
    constructor
    · simp
    · simp
  | cons i rest ih =>
    intro c hc hxs
    have hi : i ≠ .float .nan := hxs i (List.mem_cons_self _ _)
    have hrest : ∀ w ∈ rest, w ≠ .float .nan :=
      fun w hw => hxs w (List.mem_cons_of_mem _ hw)
    have hc' : (if pyGtB i c then i else c) ≠ .float .nan := by
      by_cases hg : pyGtB i c
      · rw [if_pos hg]
        exact hi
      · rw [if_neg hg]
        exact hc
    obtain ⟨hmem, hbd⟩ := ih (if pyGtB i c then i else c) hc' hrest
    rw [List.foldl_cons]
    have hcv := hbd _ (List.mem_cons_self _ _)
    refine ⟨?_, ?_⟩
    · rcases List.mem_cons.mp hmem with h1 | h1
      · by_cases hg : pyGtB i c
        · rw [h1, if_pos hg]
          exact List.mem_cons_of_mem _ (List.mem_cons_self _ _)
        · rw [h1, if_neg hg]
          exact List.mem_cons_self _ _
      · exact List.mem_cons_of_mem _ (List.mem_cons_of_mem _ h1)
    · intro w hw
      rcases List.mem_cons.mp hw with h1 | h1
      · subst h1
        by_cases hg : pyGtB i w
        · have hlt : toVal w < toVal i := (pyGtB_toVal i w hi hc).mp hg
          calc toVal w ≤ toVal i := le_of_lt hlt
            _ = toVal (if pyGtB i w then i else w) := by rw [if_pos hg]
            _ ≤ _ := hcv
        · calc toVal w = toVal (if pyGtB i w then i else w) := by
                rw [if_neg hg]
            _ ≤ _ := hcv
      · rcases List.mem_cons.mp h1 with h2 | h2
        · subst h2
          by_cases hg : pyGtB w c
          · calc toVal w = toVal (if pyGtB w c then w else c) := by
                  rw [if_pos hg]
              _ ≤ _ := hcv
          · have hnlt : ¬ toVal c < toVal w :=
              fun hlt => hg ((pyGtB_toVal w c hi hc).mpr hlt)
            calc toVal w ≤ toVal c := not_lt.mp hnlt
              _ = toVal (if pyGtB w c then w else c) := by rw [if_neg hg]
              _ ≤ _ := hcv
        · exact hbd w (List.mem_cons_of_mem _ h2)

/-- The `min` fold of `get_statistics` on a `nan`-free list returns a member
below every member in the numeric order. -/
lemma pyFoldMin_spec (xs : List Number) :
    ∀ c : Number, c ≠ .float .nan → (∀ w ∈ xs, w ≠ .float .nan) →
    (xs.foldl (fun c i => if pyLtB i c then i else c) c) ∈ c :: xs ∧
    ∀ w ∈ c :: xs,
      toVal (xs.foldl (fun c i => if pyLtB i c then i else c) c) ≤ toVal w := by
  induction xs with
  | nil =>
    intro c _ _
    constructor
    · simp
    · simp
  | cons i rest ih =>
    intro c hc hxs
    have hi : i ≠ .float .nan := hxs i (List.mem_cons_self _ _)
    have hrest : ∀ w ∈ rest, w ≠ .float .nan :=
      fun w hw => hxs w (List.mem_cons_of_mem _ hw)
    have hc' : (if pyLtB i c then i else c) ≠ .float .nan := by
      by_cases hg : pyLtB i c
      · rw [if_pos hg]
        exact hi
      · rw [if_neg hg]
        exact hc
    obtain ⟨hmem, hbd⟩ := ih (if pyLtB i c then i else c) hc' hrest
    rw [List.foldl_cons]
    have hcv := hbd _ (List.mem_cons_self _ _)
    refine ⟨?_, ?_⟩
    · rcases List.mem_cons.mp hmem with h1 | h1
      · by_cases hg : pyLtB i c
        · rw [h1, if_pos hg]
          exact List.mem_cons_of_mem _ (List.mem_cons_self _ _)
        · rw [h1, if_neg hg]
          exact List.mem_cons_self _ _
      · exact List.mem_cons_of_mem _ (List.mem_cons_of_mem _ h1)
    · intro w hw
      rcases List.mem_cons.mp hw with h1 | h1
      · subst h1
        by_cases hg : pyLtB i w
        · have hlt : toVal i < toVal w := (pyLtB_toVal i w hi hc).mp hg
          calc toVal (rest.foldl (fun c i => if pyLtB i c then i else c)
                  (if pyLtB i w then i else w)) ≤
                toVal (if pyLtB i w then i else w) := hcv
            _ = toVal i := by rw [if_pos hg]
            _ ≤ toVal w := le_of_lt hlt
        · calc toVal (rest.foldl (fun c i => if pyLtB i c then i else c)
                  (if pyLtB i w then i else w)) ≤
                toVal (if pyLtB i w then i else w) := hcv
            _ = toVal w := by rw [if_neg hg]
      · rcases List.mem_cons.mp h1 with h2 | h2
        · subst h2
          by_cases hg : pyLtB w c
          · calc toVal (rest.foldl (fun c i => if pyLtB i c then i else c)
                    (if pyLtB w c then w else c)) ≤
                  toVal (if pyLtB w c then w else c) := hcv
              _ = toVal w := by rw [if_pos hg]
          · have hnlt : ¬ toVal w < toVal c :=
              fun hlt => hg ((pyLtB_toVal w c hi hc).mpr hlt)
            calc toVal (rest.foldl (fun c i => if pyLtB i c then i else c)
                    (if pyLtB w c then w else c)) ≤
                  toVal (if pyLtB w c then w else c) := hcv
              _ = toVal c := by rw [if_neg hg]
              _ ≤ toVal w := not_lt.mp hnlt
        · exact hbd w (List.mem_cons_of_mem _ h2)

/-- Adding two finite numbers whose values and exact sum are within the float
range succeeds, stays finite and adds the values exactly (the int/int case is
exact unconditionally). -/
lemma pyAdd_finite (a b : Number) (ha : isFiniteNum a = true)
    (hb : isFiniteNum b = true) (ha2 : |resVal a| < floatLim)
    (hb2 : |resVal b| < floatLim) (hab : |resVal a + resVal b| < floatLim) :
    ∃ v, pyAdd a b = .ok v ∧ isFiniteNum v = true ∧
      resVal v = resVal a + resVal b := by
  cases a with
  | int za =>
    cases b with
    | int zb =>
      refine ⟨.int (za + zb), rfl, rfl, ?_⟩
      simp [resVal]
    | float fb =>
      cases fb with
      | finite q =>
        refine ⟨.float (.finite ((za : ℚ) + q)), ?_, rfl, by simp [resVal]⟩
        have h1 : numToFl (.int za) = .ok (.finite (za : ℚ)) :=
          intToFl_ok za (by simpa [resVal] using ha2)
        simp only [pyAdd]
        rw [h1, except_ok_bind]
        rw [show numToFl (.float (.finite q)) = .ok (.finite q) from rfl,
          except_ok_bind]
        rw [show Fl.add (.finite (za : ℚ)) (.finite q) =
          clampFl ((za : ℚ) + q) from rfl]
        rw [clampFl_finite _ (by simpa [resVal] using hab)]
      | inf => simp [isFiniteNum] at hb
      | negInf => simp [isFiniteNum] at hb
      | nan => simp [isFiniteNum] at hb
  | float fa =>
    cases fa with
    | finite p =>
      cases b with
      | int zb =>
        refine ⟨.float (.finite (p + (zb : ℚ))), ?_, rfl, by simp [resVal]⟩
        have h1 : numToFl (.int zb) = .ok (.finite (zb : ℚ)) :=
          intToFl_ok zb (by simpa [resVal] using hb2)
        simp only [pyAdd]
        rw [show numToFl (.float (.finite p)) = .ok (.finite p) from rfl,
          except_ok_bind]
        rw [h1, except_ok_bind]
        rw [show Fl.add (.finite p) (.finite (zb : ℚ)) =
          clampFl (p + (zb : ℚ)) from rfl]
        rw [clampFl_finite _ (by simpa [resVal] using hab)]
      | float fb =>
        cases fb with
        | finite q =>
          refine ⟨.float (.finite (p + q)), ?_, rfl, by simp [resVal]⟩
          simp only [pyAdd]
          rw [show numToFl (.float (.finite p)) = .ok (.finite p) from rfl,
            except_ok_bind]
          rw [show numToFl (.float (.finite q)) = .ok (.finite q) from rfl,
            except_ok_bind]
          rw [show Fl.add (.finite p) (.finite q) = clampFl (p + q) from rfl]
          rw [clampFl_finite _ (by simpa [resVal] using hab)]
        | inf => simp [isFiniteNum] at hb
        | negInf => simp [isFiniteNum] at hb
        | nan => simp [isFiniteNum] at hb
    | inf => simp [isFiniteNum] at ha
    | negInf => simp [isFiniteNum] at ha
    | nan => simp [isFiniteNum] at ha

/-- Python `sum` over finite results whose values and running sums stay within
the float range succeeds with a finite value equal to the exact rational
sum (relative to any finite accumulator). -/
lemma pySum_finite_go (rs : List Number) :
    ∀ acc : Number, isFiniteNum acc = true →
    (∀ r ∈ rs, isFiniteNum r = true) →
    (∀ r ∈ rs, |resVal r| < floatLim) →
    (∀ n, n ≤ rs.length →
      |resVal acc + ((rs.take n).map resVal).sum| < floatLim) →
    ∃ v, List.foldlM (fun acc r => pyAdd acc r) acc rs = .ok v ∧
      isFiniteNum v = true ∧ resVal v = resVal acc + (rs.map resVal).sum := by
  induction rs with
  | nil =>
    intro acc hacc _ _ _
    refine ⟨acc, rfl, hacc, by simp⟩
  | cons r rest ih =>
    intro acc hacc hfin heach hb
    have hr : isFiniteNum r = true := hfin r (List.mem_cons_self _ _)
    have hr2 : |resVal r| < floatLim := heach r (List.mem_cons_self _ _)
    have h0 : |resVal acc| < floatLim := by
      have := hb 0 (by omega)
      simpa using this
    have h1 : |resVal acc + resVal r| < floatLim := by
      have := hb 1 (by simp)
      simpa using this
    obtain ⟨v1, hv1, hfin1, hval1⟩ := pyAdd_finite acc r hacc hr h0 hr2 h1
    rw [List.foldlM_cons, hv1, except_ok_bind]
    obtain ⟨v, hv, hfinv, hvalv⟩ := ih v1 hfin1
      (fun w hw => hfin w (List.mem_cons_of_mem _ hw))
      (fun w hw => heach w (List.mem_cons_of_mem _ hw))
      (by
        intro n hn
        rw [hval1]
        have := hb (n + 1) (by simpa using Nat.succ_le_succ hn)
        rw [List.take_succ_cons, List.map_cons, List.sum_cons] at this
        rw [add_assoc]
        exact this)
    refine ⟨v, hv, hfinv, ?_⟩
    rw [hvalv, hval1]
    simp only [List.map_cons, List.sum_cons]
    ring

/-- Dividing a finite in-range value by an in-range positive int is the exact
rational quotient. -/
lemma pyDiv_finite_small (v : Number) (len : ℤ) (hfv : isFiniteNum v = true)
    (hv : |resVal v| < floatLim) (hlen : 1 ≤ len)
    (hlen2 : (len : ℚ) < floatLim) :
    pyDiv v (.int len) = .ok (.float (.finite (resVal v / (len : ℚ)))) := by
  cases v with
  | int S =>
    have := pyDiv_int_small S len hlen (by simpa [resVal] using hv)
    simpa [resVal] using this
  | float f =>
    cases f with
    | finite q =>
      have hlpos : (0 : ℚ) < (len : ℚ) := by exact_mod_cast hlen
      have hlen3 : |(len : ℚ)| < floatLim := by
        rw [abs_of_pos hlpos]
        exact hlen2
      have h2 : numToFl (.int len) = .ok (.finite (len : ℚ)) :=
        intToFl_ok len hlen3
      have hne : ((len : ℚ)) ≠ 0 := hlpos.ne'
      have hq : |q / (len : ℚ)| < floatLim := by
        rw [abs_div]
        have h2b : (1 : ℚ) ≤ |(len : ℚ)| := by
          rw [abs_of_pos hlpos]
          exact_mod_cast hlen
        calc |q| / |(len : ℚ)| ≤ |q| := div_le_self (abs_nonneg _) h2b
          _ < floatLim := by simpa [resVal] using hv
      simp only [pyDiv]
      rw [show numToFl (.float (.finite q)) = .ok (.finite q) from rfl,
        except_ok_bind]
      rw [h2, except_ok_bind]
      rw [show Fl.div (.finite q) (.finite (len : ℚ)) =
        (if (len : ℚ) = 0 then .nan else clampFl (q / (len : ℚ))) from rfl]
      rw [if_neg hne, clampFl_finite _ hq]
      simp [resVal]
    | inf => simp [isFiniteNum] at hfv
    | negInf => simp [isFiniteNum] at hfv
    | nan => simp [isFiniteNum] at hfv

/-- The float range holds small rationals comfortably. -/
lemma four_le_floatLim : (4 : ℚ) ≤ floatLim := by
  rw [floatLim, Nat.shiftLeft_eq]
  push_cast
  rw [one_mul]
  calc (4 : ℚ) = 2 ^ 2 := by norm_num
    _ ≤ 2 ^ 1024 := pow_le_pow_right₀ (by norm_num) (by norm_num)

/-- The result values of the two-operation example log are within the float
range. -/
lemma statW2_each :
    ∀ w ∈ [Number.float (.finite (1/2)), Number.int 2],
      |resVal w| < floatLim := by
  have h4 := four_le_floatLim
  intro w hw
  rcases List.mem_cons.mp hw with rfl | hw2
  · rw [show resVal (.float (.finite (1/2))) = 1/2 from rfl,
      abs_of_nonneg (by norm_num)]
    linarith
  · rcases List.mem_cons.mp hw2 with rfl | hw3
    · rw [show resVal (.int 2) = ((2 : ℤ) : ℚ) from rfl]
      push_cast
      rw [abs_of_nonneg (by norm_num)]
      linarith
    · exact absurd hw3 (List.not_mem_nil _)

/-- The running sums of the two-operation example log are within the float
range. -/
lemma statW2_sums :
    ∀ n, n ≤ ([Number.float (.finite (1/2)), Number.int 2]).length →
      |((([Number.float (.finite (1/2)), Number.int 2]).take n).map
        resVal).sum| < floatLim := by
  have h4 := four_le_floatLim
  intro n hn
  simp only [List.length_cons, List.length_nil] at hn
  interval_cases n
  · simp
    linarith
  · simp [resVal]
    rw [abs_of_nonneg (by norm_num)]
    linarith
  · simp [resVal]
    rw [abs_of_nonneg (by norm_num)]
    linarith

/-- The length of the two-operation example log is within the float range. -/
lemma statW2_len : (statW2.operations.length : ℚ) < floatLim := by
  have h4 := four_le_floatLim
  rw [show (statW2.operations.length : ℚ) = ((2 : ℕ) : ℚ) from rfl]
  push_cast
  linarith

/-- C7 counterexample: a successful `add(inf, -inf)` returns — and therefore
logs — `nan`.  On a log holding that `nan` result next to the finite result
5.0, `get_statistics` reports `nan` for max, min and average (Python's
`max`/`min` seed the fold with the first element, and every comparison with
`nan` is false), although 5.0 is a result value and `nan` compares neither
greater nor less than it: the reported max/min are not the maximum/minimum
result values, and the average is not the arithmetic mean of the results. -/
theorem statistics_cex :
    (CWH.add 0 (.float .inf) (.float .negInf) CWH.init).1 =
      .ok (.float .nan) ∧
    (CWH.add 0 (.float .inf) (.float .negInf) CWH.init).2.history.operations =
      [(⟨0, "add", [.float .inf, .float .negInf], .float .nan⟩ : Rec)] ∧
    (History.get_statistics nanLog).map (fun st => st.max_result) =
      .ok (some (.float .nan)) ∧
    (History.get_statistics nanLog).map (fun st => st.min_result) =
      .ok (some (.float .nan)) ∧
    (History.get_statistics nanLog).map (fun st => st.average_result) =
      .ok (some (.float .nan)) ∧
    Number.float (.finite 5) ∈ nanLog.operations.map (fun r => r.result) ∧
    pyGtB (.float .nan) (.float (.finite 5)) = false ∧
    pyLtB (.float .nan) (.float (.finite 5)) = false ∧
    pyGtB (.float (.finite 5)) (.float .nan) = false ∧
    pyLtB (.float (.finite 5)) (.float .nan) = false := by
  refine ⟨rfl, rfl, rfl, rfl, rfl, ?_, rfl, rfl, rfl, rfl⟩
  simp [nanLog]

/-- C7 (amended): `get_statistics` is (by construction) a pure function of
the log.  On an empty log it returns total 0, the empty per-tag mapping and
`None` aggregates.  Whenever it returns a dict, the total equals the record
count and the per-tag mapping sends every tag to its occurrence count.
Whenever it returns a dict for a non-empty log free of `nan` results, its
max/min are result values bounding all result values in the numeric order
(ints and floats compared exactly, `±inf` at the ends).  On a non-empty log
whose results are all finite, with every result value, every running sum of
the results and the record count within the float range, it returns exactly
the count, the tag counts, the arithmetic mean of the result values
(Python's `sum`/`len` float division, exact in this model), and max/min
result values bounding all result values.  On a log holding a `nan` result
the aggregates degrade to `nan` instead (see the counterexample). -/
theorem statistics_spec_amended (h : HistoryState) :
    (h.operations = [] →
      History.get_statistics h = .ok ⟨0, fun _ => 0, none, none, none⟩) ∧
    (∀ st, History.get_statistics h = .ok st →
      st.total_operations = h.operations.length ∧
      ∀ t, st.operation_types t =
        h.operations.countP (fun r => r.operation == t)) ∧
    (∀ x xs, h.operations.map (fun r => r.result) = x :: xs →
      (∀ w ∈ x :: xs, w ≠ .float .nan) →
      ∀ st, History.get_statistics h = .ok st →
        (∃ m, st.max_result = some m ∧ m ∈ x :: xs ∧
          ∀ w ∈ x :: xs, toVal w ≤ toVal m) ∧
        (∃ m, st.min_result = some m ∧ m ∈ x :: xs ∧
          ∀ w ∈ x :: xs, toVal m ≤ toVal w)) ∧
    (∀ x xs, h.operations.map (fun r => r.result) = x :: xs →
      (∀ w ∈ x :: xs, isFiniteNum w = true) →
      (∀ w ∈ x :: xs, |resVal w| < floatLim) →
      (∀ n, n ≤ (x :: xs).length →
        |(((x :: xs).take n).map resVal).sum| < floatLim) →
      ((h.operations.length : ℚ) < floatLim) →
      ∃ mx mn,
        History.get_statistics h =
          .ok ⟨h.operations.length, statTypes h.operations,
               some (.float (.finite
                 (((x :: xs).map resVal).sum / (h.operations.length : ℚ)))),
               some mx, some mn⟩ ∧
        mx ∈ x :: xs ∧ (∀ w ∈ x :: xs, toVal w ≤ toVal mx) ∧
        mn ∈ x :: xs ∧ (∀ w ∈ x :: xs, toVal mn ≤ toVal w)) := by
  refine ⟨?_, ?_, ?_, ?_⟩
  · intro hemp
    simp [History.get_statistics, hemp]
  · intro st hst
    by_cases hemp : h.operations.isEmpty
    · have hnil : h.operations = [] := List.isEmpty_iff.mp hemp
      simp only [History.get_statistics, hemp, if_true, Except.ok.injEq] at hst
      subst hst
      refine ⟨by simp [hnil], ?_⟩
      intro t
      simp [hnil]
    · have hemp' : h.operations.isEmpty = false := by simpa using hemp
      simp only [History.get_statistics, hemp', Bool.false_eq_true,
        if_false] at hst
      rcases except_bind_ok _ _ _ hst with ⟨sv, hsv, h2⟩
      rcases except_bind_ok _ _ _ h2 with ⟨avg, havg, h3⟩
      simp only [Except.ok.injEq] at h3
      subst h3
      refine ⟨rfl, ?_⟩
      intro t
      exact statTypes_eq h.operations t
  · intro x xs hmap hnn st hst
    have hne : h.operations ≠ [] := by
      intro hh
      rw [hh] at hmap
      simp at hmap
    have hemp : h.operations.isEmpty = false := by
      cases hops : h.operations with
      | nil => exact absurd hops hne
      | cons a as => rfl
    simp only [History.get_statistics, hemp, Bool.false_eq_true,
      if_false] at hst
    rcases except_bind_ok _ _ _ hst with ⟨sv, hsv, h2⟩
    rcases except_bind_ok _ _ _ h2 with ⟨avg, havg, h3⟩
    simp only [Except.ok.injEq] at h3
    subst h3
    have hx : x ≠ .float .nan := hnn x (List.mem_cons_self _ _)
    have hxs2 : ∀ w ∈ xs, w ≠ .float .nan :=
      fun w hw => hnn w (List.mem_cons_of_mem _ hw)
    obtain ⟨hmemx, hbdx⟩ := pyFoldMax_spec xs x hx hxs2
    obtain ⟨hmemn, hbdn⟩ := pyFoldMin_spec xs x hx hxs2
    constructor
    · refine ⟨xs.foldl (fun c i => if pyGtB i c then i else c) x, ?_,
        hmemx, hbdx⟩
      show pyMaxL (h.operations.map (fun op => op.result)) = some _
      rw [hmap]
      rfl
    · refine ⟨xs.foldl (fun c i => if pyLtB i c then i else c) x, ?_,
        hmemn, hbdn⟩
      show pyMinL (h.operations.map (fun op => op.result)) = some _
      rw [hmap]
      rfl
  · intro x xs hmap hfin heach hsums hlenq
    have hne : h.operations ≠ [] := by
      intro hh
      rw [hh] at hmap
      simp at hmap
    have hemp : h.operations.isEmpty = false := by
      cases hops : h.operations with
      | nil => exact absurd hops hne
      | cons a as => rfl
    have hlength : h.operations.length = xs.length + 1 := by
      have hl := congrArg List.length hmap
      simpa using hl
    have hb0 : ∀ n, n ≤ (x :: xs).length →
        |resVal (.int 0) + (((x :: xs).take n).map resVal).sum| < floatLim := by
      intro n hn
      have := hsums n hn
      simpa [resVal] using this
    obtain ⟨sv, hsv, hsfin, hsval⟩ :=
      pySum_finite_go (x :: xs) (.int 0) rfl hfin heach hb0
    have hsval2 : resVal sv = ((x :: xs).map resVal).sum := by
      rw [hsval]
      simp [resVal]
    have hsv2 : |resVal sv| < floatLim := by
      rw [hsval2]
      have := hsums (x :: xs).length le_rfl
      simpa [List.take_length] using this
    have hsv3 : pySum (x :: xs) = .ok sv := hsv
    have hlen1 : (1 : ℤ) ≤ ((x :: xs).length : ℤ) := by
      simp only [List.length_cons]
      omega
    have hlencast : (((x :: xs).length : ℤ) : ℚ) = (h.operations.length : ℚ) := by
      rw [show (x :: xs).length = h.operations.length from by
        rw [hlength]
        simp]
      push_cast
      ring
    have hlenq2 : (((x :: xs).length : ℤ) : ℚ) < floatLim := by
      rw [hlencast]
      exact hlenq
    have hdiv := pyDiv_finite_small sv ((x :: xs).length : ℤ) hsfin hsv2
      hlen1 hlenq2
    have hx : x ≠ .float .nan := finite_ne_nan x (hfin x (List.mem_cons_self _ _))
    have hxs2 : ∀ w ∈ xs, w ≠ .float .nan :=
      fun w hw => finite_ne_nan w (hfin w (List.mem_cons_of_mem _ hw))
    obtain ⟨hmemx, hbdx⟩ := pyFoldMax_spec xs x hx hxs2
    obtain ⟨hmemn, hbdn⟩ := pyFoldMin_spec xs x hx hxs2
    refine ⟨xs.foldl (fun c i => if pyGtB i c then i else c) x,
      xs.foldl (fun c i => if pyLtB i c then i else c) x,
      ?_, hmemx, hbdx, hmemn, hbdn⟩
    simp only [History.get_statistics, hemp, Bool.false_eq_true, if_false]
    rw [hmap, hsv3, except_ok_bind, hdiv, except_ok_bind]
    have havg : resVal sv / ((((x :: xs).length : ℤ)) : ℚ) =
        ((x :: xs).map resVal).sum / (h.operations.length : ℚ) := by
      rw [hsval2, hlencast]
    rw [havg]
    rfl

/-- Witness for C7 (amended) at the two-operation float/int log (results 0.5
and 2): statistics are total 2, average 1.25, max 2, min 0.5, with the order
conclusion instantiated at concrete values; and the empty-log clause at an
empty history. -/
theorem statistics_spec_amended_witness :
    (History.get_statistics statW2).map (fun st => st.total_operations) =
      .ok 2 ∧
    (History.get_statistics statW2).map (fun st => st.average_result) =
      .ok (some (.float (.finite (5/4)))) ∧
    (History.get_statistics statW2).map (fun st => st.max_result) =
      .ok (some (.int 2)) ∧
    (History.get_statistics statW2).map (fun st => st.min_result) =
      .ok (some (.float (.finite (1/2)))) ∧
    toVal (.float (.finite (1/2))) ≤ toVal (.int 2) ∧
    History.get_statistics ⟨100, []⟩ =
      .ok ⟨0, fun _ => 0, none, none, none⟩ := by
  obtain ⟨mx, mn, hst, hmx1, hmx2, hmn1, hmn2⟩ :=
    (statistics_spec_amended statW2).2.2.2 (.float (.finite (1/2))) [.int 2]
      rfl (by decide) statW2_each statW2_sums statW2_len
  have hmxv : mx = .int 2 := by
    rcases List.mem_cons.mp hmx1 with hcase | hcase
    · exfalso
      have hb := hmx2 (.int 2) (by simp)
      rw [hcase] at hb
      simp only [toVal, WithBot.coe_le_coe, WithTop.coe_le_coe] at hb
      norm_num at hb
    · simpa using hcase
  have hmnv : mn = .float (.finite (1/2)) := by
    rcases List.mem_cons.mp hmn1 with hcase | hcase
    · exact hcase
    · exfalso
      have hb := hmn2 (.float (.finite (1/2))) (List.mem_cons_self _ _)
      have hc2 : mn = .int 2 := by simpa using hcase
      rw [hc2] at hb
      simp only [toVal, WithBot.coe_le_coe, WithTop.coe_le_coe] at hb
      norm_num at hb
  subst hmxv
  subst hmnv
  obtain ⟨⟨m3, hm31, hm32, hm33⟩, -⟩ :=
    (statistics_spec_amended statW2).2.2.1 (.float (.finite (1/2))) [.int 2]
      rfl (by decide) _ hst
  have hm3 : m3 = .int 2 := by
    have h4 : some (Number.int 2) = some m3 := hm31
    injection h4 with h4
    exact h4.symm
  have hrec : History.get_statistics statW2 =
      .ok ⟨2, statTypes statW2.operations, some (.float (.finite (5/4))),
           some (.int 2), some (.float (.finite (1/2)))⟩ := by
    rw [hst]
    congr 1
    congr 1
    simp only [List.map_cons, List.map_nil, List.sum_cons, List.sum_nil]
    norm_num [resVal, statW2]
  refine ⟨?_, ?_, ?_, ?_, ?_, ?_⟩
  · rw [hrec]
    rfl
  · rw [hrec]
    rfl
  · rw [hrec]
    rfl
  · rw [hrec]
    rfl
  · rw [hm3] at hm33
    exact hm33 _ (List.mem_cons_self _ _)
  · exact (statistics_spec_amended ⟨100, []⟩).1 rfl
